import Mathlib

/-!
A shallow embedding of the LegalizeJSInterface pass
(src/passes/LegalizeJSInterface.cpp) of the binaryen repository, together
with theorems settling the specification claims about it.

The pass rewrites the imports, exports and indirect-call table of a wasm
module so that every boundary-crossing function signature uses only
JS-legal value types (no i64, no f32), threading the upper 32 bits of
64-bit results through the shared tempRet0 channel.

The IR substrate (wasm.h), the builder utilities and the small helper
libraries (ImportInfo, I64Utilities, LiteralUtils, FunctionTypeUtils) are
not part of the two source files; the spec describes them as external
collaborators with contracts, and the definitions below that embed them
carry a doc comment saying so.
-/

namespace LegalizeJS

/-- Wasm value types (wasm.h Type): none, i32, i64, f32, f64. -/
inductive Ty where
  | none | i32 | i64 | f32 | f64
deriving DecidableEq, Repr

/-- The unary operations used by this pass. -/
inductive UnaryOp where
  | DemoteFloat64 | PromoteFloat32 | WrapInt64 | ExtendUInt32
deriving DecidableEq, Repr

/-- The binary operations used by this pass. -/
inductive BinaryOp where
  | ShrUInt64 | ShlInt64 | OrInt64
deriving DecidableEq, Repr

/-- The fragment of the wasm expression IR that this pass reads or builds. -/
inductive Expression where
  | call (target : String) (operands : List Expression) (type : Ty)
  | getLocal (index : Nat) (type : Ty)
  | setLocal (index : Nat) (value : Expression)
  | getGlobal (name : String) (type : Ty)
  | setGlobal (name : String) (value : Expression)
  | unary (op : UnaryOp) (value : Expression)
  | binary (op : BinaryOp) (left right : Expression)
  | constI32 (value : Nat)
  | constI64 (value : Nat)
  | block (list : List Expression)
deriving Repr

/-- wasm.h FunctionType: a named record of parameter types and result. -/
structure FunctionType where
  name : String
  params : List Ty
  result : Ty
deriving DecidableEq, Repr

/-- wasm.h Function: name, signature, locals, the (optional) name of its
FunctionType record, import module/base (empty strings when not imported,
matching the empty Name of the C++), and a body (absent for imports). -/
structure Func where
  name : String
  params : List Ty
  result : Ty
  vars : List Ty
  type : String
  module_ : String
  base : String
  body : Option Expression
deriving Repr

/-- Function::imported(): the import module name is set. -/
def Func.imported (f : Func) : Bool := f.module_ != ""

/-- wasm.h ExternalKind. -/
inductive ExternalKind where
  | Function | Table | Memory | Global
deriving DecidableEq, Repr

/-- wasm.h Export: an external name and the internal value it refers to. -/
structure Export where
  name : String
  value : String
  kind : ExternalKind
deriving Repr

/-- wasm.h Global: a named typed storage cell with an initializer. -/
structure Global where
  name : String
  type : Ty
  mutable_ : Bool
  init : Expression
deriving Repr

/-- wasm.h Table: the ordered segments of function names used by
indirect calls.  Only the per-segment name lists matter to this pass. -/
structure Table where
  segments : List (List String)
deriving Repr

/-- The slice of wasm.h Module that this pass reads or mutates. -/
structure Module where
  functions : List Func
  functionTypes : List FunctionType
  exports : List Export
  globals : List Global
  table : Table
deriving Repr

/-- Modelled from the spec: Module::getFunctionOrNull of the IR substrate
(wasm.h, not in src/) — look a function up by name. -/
def Module.getFunctionOrNull (m : Module) (name : String) : Option Func :=
  m.functions.find? (fun f => f.name == name)

/-- Modelled from the spec: Module::getFunctionTypeOrNull of the IR
substrate — look a function-type record up by name. -/
def Module.getFunctionTypeOrNull (m : Module) (name : String) : Option FunctionType :=
  m.functionTypes.find? (fun t => t.name == name)

/-- Modelled from the spec: Module::getExportOrNull of the IR substrate —
look an export up by its external name. -/
def Module.getExportOrNull (m : Module) (name : String) : Option Export :=
  m.exports.find? (fun e => e.name == name)

/-- Modelled from the spec: Module::getGlobalOrNull of the IR substrate —
look a global up by name. -/
def Module.getGlobalOrNull (m : Module) (name : String) : Option Global :=
  m.globals.find? (fun g => g.name == name)

/-- Modelled from the spec: Module::addFunction of the IR substrate. -/
def Module.addFunction (m : Module) (f : Func) : Module :=
  { m with functions := m.functions ++ [f] }

/-- Modelled from the spec: Module::addFunctionType of the IR substrate. -/
def Module.addFunctionType (m : Module) (t : FunctionType) : Module :=
  { m with functionTypes := m.functionTypes ++ [t] }

/-- Modelled from the spec: Module::addExport of the IR substrate. -/
def Module.addExport (m : Module) (e : Export) : Module :=
  { m with exports := m.exports ++ [e] }

/-- Modelled from the spec: Module::addGlobal of the IR substrate. -/
def Module.addGlobal (m : Module) (g : Global) : Module :=
  { m with globals := m.globals ++ [g] }

/-- Modelled from the spec: Module::removeFunction of the IR substrate —
delete the function of the given name. -/
def Module.removeFunction (m : Module) (name : String) : Module :=
  { m with functions := m.functions.filter (fun f => f.name != name) }

/-- Modelled from the spec: ImportInfo::getImportedFunction
(ir/import-utils.h, not in src/) — find an imported function by its import
module and base names. -/
def Module.getImportedFunction (m : Module) (module_ base : String) : Option Func :=
  m.functions.find? (fun f => f.imported && f.module_ == module_ && f.base == base)

/-- Name TEMP_RET_0("tempRet0"). -/
def TEMP_RET_0 : String := "tempRet0"

/-- Name GET_TEMP_RET_0("getTempRet0"). -/
def GET_TEMP_RET_0 : String := "getTempRet0"

/-- Name SET_TEMP_RET_0("setTempRet0"). -/
def SET_TEMP_RET_0 : String := "setTempRet0"

/-- Modelled from the spec: the well-known host import module name ENV
(shared-constants.h, not in src/). -/
def ENV : String := "env"

/-- The names and accessibility of the tempRet0 channel discovered by
ensureTempRet0Helpers: the pass fields getTempRet0, setTempRet0 and
hasGlobal of LegalizeJSInterface. -/
structure TempRet0Info where
  getTempRet0 : String
  setTempRet0 : String
  hasGlobal : Bool
deriving DecidableEq, Repr

/-- isIllegal, shared shape of its two instantiations (lines 133-140):
any i64 or f32 parameter, or an i64 or f32 result. -/
def isIllegalSig (params : List Ty) (result : Ty) : Bool :=
  params.any (fun p => p == Ty.i64 || p == Ty.f32) || result == Ty.i64 || result == Ty.f32

/-- isIllegal on a Function (used by the export loop). -/
def isIllegalF (f : Func) : Bool := isIllegalSig f.params f.result

/-- isIllegal on a FunctionType (used by the import loop). -/
def isIllegalT (t : FunctionType) : Bool := isIllegalSig t.params t.result

/-- Modelled from the spec: I64Utilities::getI64High (ir/utils.h, not in
src/) — read the i64 local and extract its upper 32 bits
(value div 2^32) as an i32. -/
def getI64High (idx : Nat) : Expression :=
  .unary .WrapInt64 (.binary .ShrUInt64 (.getLocal idx .i64) (.constI64 32))

/-- Modelled from the spec: I64Utilities::getI64Low — read the i64 local
and extract its lower 32 bits (value mod 2^32) as an i32. -/
def getI64Low (idx : Nat) : Expression :=
  .unary .WrapInt64 (.getLocal idx .i64)

/-- Modelled from the spec: I64Utilities::recreateI64 — recombine a low
and a high i32 word into the full i64 value. -/
def recreateI64 (low high : Expression) : Expression :=
  .binary .OrInt64 (.unary .ExtendUInt32 low)
    (.binary .ShlInt64 (.unary .ExtendUInt32 high) (.constI64 32))

/-- Modelled from the spec: the overload of I64Utilities::recreateI64
taking two local indices (used at line 154). -/
def recreateI64FromLocals (lowIdx highIdx : Nat) : Expression :=
  recreateI64 (.getLocal lowIdx .i32) (.getLocal highIdx .i32)

/-- The parameter loop of makeLegalStub (lines 152-164): for each original
parameter, an i64 becomes two i32 stub parameters recombined for the inner
call, an f32 becomes an f64 stub parameter demoted for the inner call, and
anything else passes through.  Accumulates the stub parameter list and the
inner call operands. -/
def legalizeExportParams : List Ty → List Ty → List Expression → (List Ty × List Expression)
  | [], legalParams, ops => (legalParams, ops)
  | p :: rest, legalParams, ops =>
    if p == Ty.i64 then
      legalizeExportParams rest (legalParams ++ [Ty.i32, Ty.i32])
        (ops ++ [recreateI64FromLocals legalParams.length (legalParams.length + 1)])
    else if p == Ty.f32 then
      legalizeExportParams rest (legalParams ++ [Ty.f64])
        (ops ++ [.unary .DemoteFloat64 (.getLocal legalParams.length .f64)])
    else
      legalizeExportParams rest (legalParams ++ [p])
        (ops ++ [.getLocal legalParams.length p])

/-- The stub function record built by makeLegalStub (lines 145-194): the
legal parameter list from the parameter loop, and the result handling —
an i64 result becomes an i32 stub result whose body stores the inner
call in a fresh i64 temporary, writes its high word through the channel
(register write when accessible, else a setter call) and yields the low
word; an f32 result is promoted to an f64 stub result; anything else
passes through. -/
def makeLegalStubFunc (info : TempRet0Info) (func : Func) : Func :=
  let legalName := "legalstub$" ++ func.name
  let pr := legalizeExportParams func.params [] []
  let legalParams := pr.1
  let call : Expression := .call func.name pr.2 func.result
  if func.result == Ty.i64 then
    let index := legalParams.length
    { name := legalName, params := legalParams, result := Ty.i32, vars := [Ty.i64],
      type := "", module_ := "", base := "",
      body := some (.block [
        .setLocal index call,
        (if info.hasGlobal then
          .setGlobal TEMP_RET_0 (getI64High index)
        else
          .call info.setTempRet0 [getI64High index] Ty.none),
        getI64Low index]) }
  else if func.result == Ty.f32 then
    { name := legalName, params := legalParams, result := Ty.f64, vars := [],
      type := "", module_ := "", base := "",
      body := some (.unary .PromoteFloat32 call) }
  else
    { name := legalName, params := legalParams, result := func.result, vars := [],
      type := "", module_ := "", base := "",
      body := some call }

/-- makeLegalStub (lines 143-201): synthesize the legal stub a JS caller
of an illegal export goes through, add it to the module unless a function
of the derived name already exists, and return the stub name. -/
def makeLegalStub (info : TempRet0Info) (func : Func) (m : Module) : Module × String :=
  let legalName := "legalstub$" ++ func.name
  let legal := makeLegalStubFunc info func
  let m := if (m.getFunctionOrNull legalName).isNone then m.addFunction legal else m
  (m, legalName)

/-- The parameter loop of makeLegalStubForCalledImport (lines 221-235):
accumulates the legal type parameters, the stub (original) parameters and
the operands of the call to the legal import. -/
def legalizeImportParams : List Ty → List Ty → List Ty → List Expression →
    (List Ty × List Ty × List Expression)
  | [], typeParams, funcParams, ops => (typeParams, funcParams, ops)
  | p :: rest, typeParams, funcParams, ops =>
    if p == Ty.i64 then
      legalizeImportParams rest (typeParams ++ [Ty.i32, Ty.i32]) (funcParams ++ [p])
        (ops ++ [getI64Low funcParams.length, getI64High funcParams.length])
    else if p == Ty.f32 then
      legalizeImportParams rest (typeParams ++ [Ty.f64]) (funcParams ++ [p])
        (ops ++ [.unary .PromoteFloat32 (.getLocal funcParams.length .f32)])
    else
      legalizeImportParams rest (typeParams ++ [p]) (funcParams ++ [p])
        (ops ++ [.getLocal funcParams.length p])

/-- The legalized result type of an import signature (lines 237-255):
i64 becomes i32 (the low word), f32 becomes f64, others pass through. -/
def legalImportResult (t : FunctionType) : Ty :=
  if t.result == Ty.i64 then Ty.i32
  else if t.result == Ty.f32 then Ty.f64
  else t.result

/-- The fresh legal type record (legaltype$) built by
makeLegalStubForCalledImport (lines 206-255). -/
def makeLegalImportType (im : Func) (t : FunctionType) : FunctionType :=
  { name := "legaltype$" ++ im.name,
    params := (legalizeImportParams t.params [] [] []).1,
    result := legalImportResult t }

/-- The legal import function record (legalimport$, lines 208-212),
its signature filled from the legal type record by
FunctionTypeUtils::fillFunction at line 257 (modelled from the spec:
fillFunction copies the type record signature into the function). -/
def makeLegalImportFunc (im : Func) (t : FunctionType) : Func :=
  { name := "legalimport$" ++ im.name,
    params := (legalizeImportParams t.params [] [] []).1,
    result := legalImportResult t,
    vars := [], type := "legaltype$" ++ im.name,
    module_ := im.module_, base := im.base, body := Option.none }

/-- The body of the internal stub (lines 216-255): the call to the legal import
with split/promoted operands; an i64 result is recombined with the
high word fetched from the channel right after the call (register read
when accessible, else a getter call); an f32 result is demoted back. -/
def makeLegalFuncBody (info : TempRet0Info) (im : Func) (t : FunctionType) : Expression :=
  let ops := (legalizeImportParams t.params [] [] []).2.2
  let legalName := "legalimport$" ++ im.name
  if t.result == Ty.i64 then
    let get : Expression :=
      if info.hasGlobal then .getGlobal TEMP_RET_0 Ty.i32
      else .call info.getTempRet0 [] Ty.i32
    recreateI64 (.call legalName ops Ty.i32) get
  else if t.result == Ty.f32 then
    .unary .DemoteFloat64 (.call legalName ops Ty.f64)
  else
    .call legalName ops t.result

/-- The internal stub record (legalfunc$, lines 213-256), carrying the import
's original signature. -/
def makeLegalFuncStub (info : TempRet0Info) (im : Func) (t : FunctionType) : Func :=
  { name := "legalfunc$" ++ im.name,
    params := (legalizeImportParams t.params [] [] []).2.1,
    result := t.result, vars := [], type := "", module_ := "", base := "",
    body := some (makeLegalFuncBody info im t) }

/-- makeLegalStubForCalledImport (lines 204-269): synthesize the
legal-typed import (legalimport$) with its fresh type record (legaltype$)
and the internal same-signature stub (legalfunc$) that wasm callers go
through; add each to the module unless its name already exists; return the
stub name.  The FunctionType record of the original import is passed in:
the C++ looks it up again with Module::getFunctionType at line 219, which
returns the same record the caller of this function found. -/
def makeLegalStubForCalledImport (info : TempRet0Info) (im : Func)
    (imFunctionType : FunctionType) (m : Module) : Module × String :=
  let type := makeLegalImportType im imFunctionType
  let legal := makeLegalImportFunc im imFunctionType
  let func := makeLegalFuncStub info im imFunctionType
  let m := if (m.getFunctionOrNull func.name).isNone then m.addFunction func else m
  let m := if (m.getFunctionTypeOrNull type.name).isNone then m.addFunctionType type else m
  let m := if (m.getFunctionOrNull legal.name).isNone then m.addFunction legal else m
  (m, func.name)

/-- Modelled from the spec: LiteralUtils::makeZero at i32
(ir/literal-utils.h, not in src/) — a zero constant of type i32. -/
def makeZeroI32 : Expression := .constI32 0

/-- The fallback tempRet0 register created at lines 305-312: a mutable
i32 global initialized to zero. -/
def tempRet0Global : Global :=
  { name := TEMP_RET_0, type := Ty.i32, mutable_ := true, init := makeZeroI32 }

/-- The fallback getter created at line 326: no parameters, returns the
register. -/
def getTempRet0Func : Func :=
  { name := GET_TEMP_RET_0, params := [], result := Ty.i32, vars := [],
    type := "", module_ := "", base := "",
    body := some (.getGlobal TEMP_RET_0 Ty.i32) }

/-- The fallback setter created at line 327: one i32 parameter, assigned
into the register. -/
def setTempRet0Func : Func :=
  { name := SET_TEMP_RET_0, params := [Ty.i32], result := Ty.none, vars := [],
    type := "", module_ := "", base := "",
    body := some (.setGlobal TEMP_RET_0 (.getLocal 0 Ty.i32)) }

/-- The export records created by the add lambda at lines 320-324. -/
def exportOfName (name : String) : Export :=
  { name := name, value := name, kind := ExternalKind.Function }

/-- ensureTempRet0Helpers (lines 273-328), in explicit state-passing
style: the first component is the discovered channel (or the fatal
diagnostic), the second the module, mutated only on the creation path. -/
def ensureTempRet0Helpers (m : Module) : Except String TempRet0Info × Module :=
  match m.getImportedFunction ENV GET_TEMP_RET_0, m.getImportedFunction ENV SET_TEMP_RET_0 with
  | some importedGet, some importedSet =>
    (Except.ok { getTempRet0 := importedGet.name, setTempRet0 := importedSet.name,
                 hasGlobal := false }, m)
  | some _, Option.none =>
    (Except.error "LegalizeJSInterface cannot handle partial tempRet0 imports", m)
  | Option.none, some _ =>
    (Except.error "LegalizeJSInterface cannot handle partial tempRet0 imports", m)
  | Option.none, Option.none =>
    match m.getExportOrNull GET_TEMP_RET_0, m.getExportOrNull SET_TEMP_RET_0 with
    | some exportedGet, some exportedSet =>
      (Except.ok { getTempRet0 := exportedGet.value, setTempRet0 := exportedSet.value,
                   hasGlobal := (m.getGlobalOrNull TEMP_RET_0).isSome }, m)
    | some _, Option.none =>
      (Except.error "LegalizeJSInterface cannot handle partial tempRet0 imports", m)
    | Option.none, some _ =>
      (Except.error "LegalizeJSInterface cannot handle partial tempRet0 imports", m)
    | Option.none, Option.none =>
      let m :=
        if (m.getGlobalOrNull TEMP_RET_0).isNone then m.addGlobal tempRet0Global
        else m
      let m := (m.addFunction getTempRet0Func).addExport (exportOfName GET_TEMP_RET_0)
      let m := (m.addFunction setTempRet0Func).addExport (exportOfName SET_TEMP_RET_0)
      (Except.ok { getTempRet0 := GET_TEMP_RET_0, setTempRet0 := SET_TEMP_RET_0,
                   hasGlobal := true }, m)

/-- Lookup in the illegal-import-to-legal-stub name map (std::map find). -/
def mapFind (map : List (String × String)) (n : String) : Option String :=
  (map.find? (fun p => p.1 == n)).map (fun p => p.2)

/-- FixImports::visitCall (lines 106-112) at a call node of the given
target, operands and type, walking a function of name fname: a call whose
target is mapped is redirected to the mapped stub with the same operands
and type, unless it sits inside that very stub; unmapped calls stay. -/
def visitCall (map : List (String × String)) (fname : String)
    (target : String) (operands : List Expression) (ty : Ty) : Expression :=
  match mapFind map target with
  | Option.none => .call target operands ty
  | Option.some legalName =>
    if legalName == fname then .call target operands ty
    else .call legalName operands ty

mutual

/-- The FixImports post-order walk over one expression tree inside the
function named fname: children first, then visitCall at call nodes. -/
def fixExpr (map : List (String × String)) (fname : String) : Expression → Expression
  | .call t ops ty => visitCall map fname t (fixExprList map fname ops) ty
  | .getLocal i ty => .getLocal i ty
  | .setLocal i v => .setLocal i (fixExpr map fname v)
  | .getGlobal n ty => .getGlobal n ty
  | .setGlobal n v => .setGlobal n (fixExpr map fname v)
  | .unary op v => .unary op (fixExpr map fname v)
  | .binary op l r => .binary op (fixExpr map fname l) (fixExpr map fname r)
  | .constI32 v => .constI32 v
  | .constI64 v => .constI64 v
  | .block l => .block (fixExprList map fname l)

/-- The walk over a list of child expressions. -/
def fixExprList (map : List (String × String)) (fname : String) : List Expression → List Expression
  | [] => []
  | e :: es => fixExpr map fname e :: fixExprList map fname es

end

/-- The rewrite FixImports applies to one function: walk the body if
there is one (imports have none). -/
def fixFunc (map : List (String × String)) (f : Func) : Func :=
  match f.body with
  | Option.none => f
  | some b => { f with body := some (fixExpr map f.name b) }

/-- The FixImports WalkerPass run over the whole module (lines 97-118):
every defined function body is walked; imports have no body. -/
def fixImports (map : List (String × String)) (m : Module) : Module :=
  { m with functions := m.functions.map (fixFunc map) }

/-- The export loop of run (lines 59-68), threading the module through
makeLegalStub and rebuilding the export list with repointed targets.  The
C++ mutates each export in place; stub creation only ever adds functions,
so later lookups see exactly the threaded module. -/
def runExportLoop (info : TempRet0Info) : Module → List Export → Module × List Export
  | m, [] => (m, [])
  | m, ex :: rest =>
    if ex.kind == ExternalKind.Function then
      match m.getFunctionOrNull ex.value with
      | some func =>
        if isIllegalF func then
          let r := makeLegalStub info func m
          let r2 := runExportLoop info r.1 rest
          (r2.1, { ex with value := r.2 } :: r2.2)
        else
          let r2 := runExportLoop info m rest
          (r2.1, ex :: r2.2)
      | Option.none =>
        let r2 := runExportLoop info m rest
        (r2.1, ex :: r2.2)
    else
      let r2 := runExportLoop info m rest
      (r2.1, ex :: r2.2)

/-- One table rewrite of the import loop (lines 81-87): every segment
entry naming the import is changed to name the stub. -/
def rewriteTable (t : Table) (importName funcName : String) : Table :=
  { segments := t.segments.map (List.map (fun n => if n == importName then funcName else n)) }

/-- The import loop of run (lines 75-89) over the snapshot of original
functions: each illegal import gets its stubs, its map entry and its table
rewrite. -/
def runImportLoop (info : TempRet0Info) :
    Module → List Func → List (String × String) → Module × List (String × String)
  | m, [], map => (m, map)
  | m, im :: rest, map =>
    if im.imported then
      match m.getFunctionTypeOrNull im.type with
      | some t =>
        if isIllegalT t then
          let r := makeLegalStubForCalledImport info im t m
          let m2 := { r.1 with table := rewriteTable r.1.table im.name r.2 }
          runImportLoop info m2 rest (map ++ [(im.name, r.2)])
        else runImportLoop info m rest map
      | Option.none => runImportLoop info m rest map
    else runImportLoop info m rest map

/-- LegalizeJSInterface::run (lines 55-120): resolve the tempRet0 channel
(fatal on a half-present pair), legalize illegal exports, legalize
illegal imports with their table rewrites, then — only when at least one import
was reclassified — remove the illegal imports and run the
FixImports call-site walk. -/
def run (m : Module) : Except String Module :=
  match ensureTempRet0Helpers m with
  | (Except.error e, _) => Except.error e
  | (Except.ok info, m0) =>
    let re := runExportLoop info m0 m0.exports
    let m2 : Module := { re.1 with exports := re.2 }
    let originalFunctions := m2.functions
    let ri := runImportLoop info m2 originalFunctions []
    let m3 := ri.1
    let map := ri.2
    if map.length > 0 then
      let m4 := map.foldl (fun acc p => acc.removeFunction p.1) m3
      Except.ok (fixImports map m4)
    else
      Except.ok m3

/-! ### Generic helper lemmas about names -/

theorem append_left_cancel_string {p x y : String} (h : p ++ x = p ++ y) : x = y := by
  have hd := congrArg String.data h
  simp [String.data_append] at hd
  exact String.ext hd

/-- Whether a name starts with the reserved generated-name marker. -/
def hasLegalPref (s : String) : Bool := "legal".data.isPrefixOf s.data

theorem hasLegalPref_append {p : String} (x : String) (hp : hasLegalPref p = true) :
    hasLegalPref (p ++ x) = true := by
  simp only [hasLegalPref, String.data_append, List.isPrefixOf_iff_prefix] at *
  exact hp.trans (List.prefix_append _ _)

theorem hasLegalPref_legalstub (x : String) : hasLegalPref ("legalstub$" ++ x) = true :=
  hasLegalPref_append x (by decide)

theorem hasLegalPref_legalfunc (x : String) : hasLegalPref ("legalfunc$" ++ x) = true :=
  hasLegalPref_append x (by decide)

theorem hasLegalPref_legalimport (x : String) : hasLegalPref ("legalimport$" ++ x) = true :=
  hasLegalPref_append x (by decide)

theorem hasLegalPref_legaltype (x : String) : hasLegalPref ("legaltype$" ++ x) = true :=
  hasLegalPref_append x (by decide)

theorem ne_of_hasLegalPref {a b : String} (ha : hasLegalPref a = false)
    (hb : hasLegalPref b = true) : a ≠ b := by
  intro h; rw [h, hb] at ha; simp at ha

theorem legalstub_ne_legalfunc (x y : String) : "legalstub$" ++ x ≠ "legalfunc$" ++ y := by
  intro h
  have hd := congrArg String.data h
  simp [String.data_append] at hd

theorem legalstub_ne_legalimport (x y : String) : "legalstub$" ++ x ≠ "legalimport$" ++ y := by
  intro h
  have hd := congrArg String.data h
  simp [String.data_append] at hd

theorem legalfunc_ne_legalimport (x y : String) : "legalfunc$" ++ x ≠ "legalimport$" ++ y := by
  intro h
  have hd := congrArg String.data h
  simp [String.data_append] at hd

/-! ### Claim C9: the 64-bit split/recombine round trip -/

/-- Modelled from the spec: the low 32-bit word of a 64-bit value the
channel protocol splits off — low = value mod 2^32. -/
def splitLow (v : Nat) : Nat := v % 2 ^ 32

/-- Modelled from the spec: the high 32-bit word — high = value div 2^32. -/
def splitHigh (v : Nat) : Nat := v / 2 ^ 32

/-- Modelled from the spec: the value computed by the recreateI64
recombination — the bitwise or of the zero-extended low word with the
zero-extended high word shifted left by 32 bits; on these disjoint bit
ranges the or is exactly the sum low mod 2^32 + 2^32 * (high mod 2^32). -/
def recombineI64 (low high : Nat) : Nat := low % 2 ^ 32 + 2 ^ 32 * (high % 2 ^ 32)

/-- C9: splitting any 64-bit value into its low word (mod 2^32) and high
word (div 2^32) and recombining them the way the import stub does yields
the original value back. -/
theorem claim_C9_roundtrip (v : Nat) (hv : v < 2 ^ 64) :
    recombineI64 (splitLow v) (splitHigh v) = v := by
  unfold recombineI64 splitLow splitHigh
  omega

theorem claim_C9_roundtrip_witness :
    (0 < 2 ^ 64 ∧ recombineI64 (splitLow 0) (splitHigh 0) = 0) ∧
    (2 ^ 64 - 1 < 2 ^ 64 ∧
      recombineI64 (splitLow (2 ^ 64 - 1)) (splitHigh (2 ^ 64 - 1)) = 2 ^ 64 - 1) ∧
    (2 ^ 63 < 2 ^ 64 ∧ recombineI64 (splitLow (2 ^ 63)) (splitHigh (2 ^ 63)) = 2 ^ 63) ∧
    (2 ^ 63 - 1 < 2 ^ 64 ∧
      recombineI64 (splitLow (2 ^ 63 - 1)) (splitHigh (2 ^ 63 - 1)) = 2 ^ 63 - 1) :=
  ⟨⟨by norm_num, claim_C9_roundtrip 0 (by norm_num)⟩,
   ⟨by norm_num, claim_C9_roundtrip (2 ^ 64 - 1) (by norm_num)⟩,
   ⟨by norm_num, claim_C9_roundtrip (2 ^ 63) (by norm_num)⟩,
   ⟨by norm_num, claim_C9_roundtrip (2 ^ 63 - 1) (by norm_num)⟩⟩

/-! ### Claim C5: the call-site fixer rewrite rule -/

/-- C5: the FixImports walk applies visitCall at every call node (children
first); a call whose target is mapped is redirected to the mapped stub
name with the same operands and type, unless the walk is inside that very
stub; a call whose target is not mapped is left unchanged. -/
theorem claim_C5_fixImports (map : List (String × String)) (fname target : String)
    (operands : List Expression) (ty : Ty) :
    fixExpr map fname (Expression.call target operands ty) =
      visitCall map fname target (fixExprList map fname operands) ty ∧
    (mapFind map target = Option.none →
      visitCall map fname target operands ty = Expression.call target operands ty) ∧
    (∀ legalName, mapFind map target = some legalName → legalName = fname →
      visitCall map fname target operands ty = Expression.call target operands ty) ∧
    (∀ legalName, mapFind map target = some legalName → legalName ≠ fname →
      visitCall map fname target operands ty = Expression.call legalName operands ty) := by
  refine ⟨rfl, ?_, ?_, ?_⟩
  · intro h; simp [visitCall, h]
  · intro legalName h he; simp [visitCall, h, he]
  · intro legalName h he; simp [visitCall, h, he]

theorem claim_C5_fixImports_witness :
    visitCall [("imp", "legalfunc$imp")] "caller" "imp" [] Ty.i64 =
      Expression.call "legalfunc$imp" [] Ty.i64 ∧
    visitCall [("imp", "legalfunc$imp")] "legalfunc$imp" "imp" [] Ty.i64 =
      Expression.call "imp" [] Ty.i64 ∧
    visitCall [("imp", "legalfunc$imp")] "caller" "other" [] Ty.i64 =
      Expression.call "other" [] Ty.i64 :=
  ⟨(claim_C5_fixImports [("imp", "legalfunc$imp")] "caller" "imp" [] Ty.i64).2.2.2
      "legalfunc$imp" (by rfl) (by decide),
   (claim_C5_fixImports [("imp", "legalfunc$imp")] "legalfunc$imp" "imp" [] Ty.i64).2.2.1
      "legalfunc$imp" (by rfl) rfl,
   (claim_C5_fixImports [("imp", "legalfunc$imp")] "caller" "other" [] Ty.i64).2.1 (by rfl)⟩

/-! ### Claim C10: the fallback register creation guard -/

/-- C10: on the creation path (no channel imports, no channel exports)
the channel is marked register-accessible; the backing register is
created as a mutable i32 global initialized to zero only when no global
of the well-known name exists, and a pre-existing global under that name
leaves the global list untouched. -/
theorem claim_C10_register_guard (m : Module)
    (h1 : m.getImportedFunction ENV GET_TEMP_RET_0 = Option.none)
    (h2 : m.getImportedFunction ENV SET_TEMP_RET_0 = Option.none)
    (h3 : m.getExportOrNull GET_TEMP_RET_0 = Option.none)
    (h4 : m.getExportOrNull SET_TEMP_RET_0 = Option.none) :
    (ensureTempRet0Helpers m).1 = Except.ok
      { getTempRet0 := GET_TEMP_RET_0, setTempRet0 := SET_TEMP_RET_0, hasGlobal := true } ∧
    ((m.getGlobalOrNull TEMP_RET_0).isNone →
      (ensureTempRet0Helpers m).2.globals = m.globals ++ [tempRet0Global]) ∧
    ((m.getGlobalOrNull TEMP_RET_0).isSome →
      (ensureTempRet0Helpers m).2.globals = m.globals) := by
  unfold ensureTempRet0Helpers
  rw [h1, h2, h3, h4]
  refine ⟨rfl, ?_, ?_⟩
  · intro hg
    simp [hg, Module.addGlobal, Module.addFunction, Module.addExport]
  · intro hg
    have : (m.getGlobalOrNull TEMP_RET_0).isNone = false := by
      simp [Option.isNone_iff_eq_none]
      exact Option.isSome_iff_exists.mp hg |>.elim fun g hg2 => by simp [hg2]
    simp [this, Module.addFunction, Module.addExport]

/-- The empty module: no channel imports, no channel exports, no global. -/
def emptyModule : Module :=
  { functions := [], functionTypes := [], exports := [], globals := [],
    table := { segments := [] } }

/-- A module holding only a pre-existing tempRet0 register. -/
def globalOnlyModule : Module :=
  { functions := [], functionTypes := [], exports := [], globals := [tempRet0Global],
    table := { segments := [] } }

theorem claim_C10_register_guard_witness :
    ((ensureTempRet0Helpers emptyModule).1 = Except.ok
      { getTempRet0 := GET_TEMP_RET_0, setTempRet0 := SET_TEMP_RET_0, hasGlobal := true } ∧
    ((emptyModule.getGlobalOrNull TEMP_RET_0).isNone →
      (ensureTempRet0Helpers emptyModule).2.globals = emptyModule.globals ++ [tempRet0Global]) ∧
    ((emptyModule.getGlobalOrNull TEMP_RET_0).isSome →
      (ensureTempRet0Helpers emptyModule).2.globals = emptyModule.globals)) ∧
    ((ensureTempRet0Helpers globalOnlyModule).1 = Except.ok
      { getTempRet0 := GET_TEMP_RET_0, setTempRet0 := SET_TEMP_RET_0, hasGlobal := true } ∧
    ((globalOnlyModule.getGlobalOrNull TEMP_RET_0).isNone →
      (ensureTempRet0Helpers globalOnlyModule).2.globals =
        globalOnlyModule.globals ++ [tempRet0Global]) ∧
    ((globalOnlyModule.getGlobalOrNull TEMP_RET_0).isSome →
      (ensureTempRet0Helpers globalOnlyModule).2.globals = globalOnlyModule.globals)) :=
  ⟨claim_C10_register_guard emptyModule rfl rfl rfl rfl,
   claim_C10_register_guard globalOnlyModule rfl rfl rfl rfl⟩

/-! ### Claim C2: the channel resolver priority order -/

/-- C2: the resolver prefers a fully imported pair (reusing the imports
internal names, call-through-only), then a fully exported pair (reusing
the exports target names, register-accessible exactly when a tempRet0
global exists), and otherwise creates the register (ensuring it exists),
the getter and the setter under the well-known names, exports both, and
marks the channel register-accessible.  In the first two cases the module
is untouched. -/
theorem claim_C2_channel_priority (m : Module) :
    (∀ ig isf, m.getImportedFunction ENV GET_TEMP_RET_0 = some ig →
      m.getImportedFunction ENV SET_TEMP_RET_0 = some isf →
      ensureTempRet0Helpers m = (Except.ok
        { getTempRet0 := ig.name, setTempRet0 := isf.name, hasGlobal := false }, m)) ∧
    (m.getImportedFunction ENV GET_TEMP_RET_0 = Option.none →
      m.getImportedFunction ENV SET_TEMP_RET_0 = Option.none →
      ∀ eg es, m.getExportOrNull GET_TEMP_RET_0 = some eg →
        m.getExportOrNull SET_TEMP_RET_0 = some es →
        ensureTempRet0Helpers m = (Except.ok
          { getTempRet0 := eg.value, setTempRet0 := es.value,
            hasGlobal := (m.getGlobalOrNull TEMP_RET_0).isSome }, m)) ∧
    (m.getImportedFunction ENV GET_TEMP_RET_0 = Option.none →
      m.getImportedFunction ENV SET_TEMP_RET_0 = Option.none →
      m.getExportOrNull GET_TEMP_RET_0 = Option.none →
      m.getExportOrNull SET_TEMP_RET_0 = Option.none →
      ensureTempRet0Helpers m = (Except.ok
        { getTempRet0 := GET_TEMP_RET_0, setTempRet0 := SET_TEMP_RET_0, hasGlobal := true },
        { m with
          globals := if (m.getGlobalOrNull TEMP_RET_0).isNone
                     then m.globals ++ [tempRet0Global] else m.globals,
          functions := m.functions ++ [getTempRet0Func, setTempRet0Func],
          exports := m.exports ++
            [exportOfName GET_TEMP_RET_0, exportOfName SET_TEMP_RET_0] })) := by
  refine ⟨?_, ?_, ?_⟩
  · intro ig isf hig hisf
    unfold ensureTempRet0Helpers
    rw [hig, hisf]
  · intro h1 h2 eg es heg hes
    unfold ensureTempRet0Helpers
    rw [h1, h2, heg, hes]
  · intro h1 h2 h3 h4
    unfold ensureTempRet0Helpers
    rw [h1, h2, h3, h4]
    by_cases hg : (m.getGlobalOrNull TEMP_RET_0).isNone <;>
      simp [hg, Module.addGlobal, Module.addFunction, Module.addExport]

theorem claim_C2_channel_priority_witness :
    ((ensureTempRet0Helpers emptyModule).1 = Except.ok
        { getTempRet0 := GET_TEMP_RET_0, setTempRet0 := SET_TEMP_RET_0,
          hasGlobal := true } ∧
      (ensureTempRet0Helpers emptyModule).2 =
        { emptyModule with
          globals := emptyModule.globals ++ [tempRet0Global],
          functions := emptyModule.functions ++ [getTempRet0Func, setTempRet0Func],
          exports := emptyModule.exports ++
            [exportOfName GET_TEMP_RET_0, exportOfName SET_TEMP_RET_0] }) := by
  have h := (claim_C2_channel_priority emptyModule).2.2 rfl rfl rfl rfl
  rw [h]
  exact ⟨rfl, by simp [emptyModule, Module.getGlobalOrNull]⟩

/-! ### Claim C3: fatal exactly on a half-present channel pair -/

/-- C3: the resolver faults exactly when one member of the pair is
present as an import (while probing imports) or one member is present as
an export (while probing exports, reached when neither is imported); on
a fault the module is unchanged and run propagates the diagnostic. -/
theorem claim_C3_fatal_iff_half (m : Module) :
    (((ensureTempRet0Helpers m).1.isOk = false) ↔
      ((m.getImportedFunction ENV GET_TEMP_RET_0).isSome ≠
        (m.getImportedFunction ENV SET_TEMP_RET_0).isSome) ∨
      ((m.getImportedFunction ENV GET_TEMP_RET_0) = Option.none ∧
       (m.getImportedFunction ENV SET_TEMP_RET_0) = Option.none ∧
       (m.getExportOrNull GET_TEMP_RET_0).isSome ≠
        (m.getExportOrNull SET_TEMP_RET_0).isSome)) ∧
    ((ensureTempRet0Helpers m).1.isOk = false → (ensureTempRet0Helpers m).2 = m) ∧
    ((ensureTempRet0Helpers m).1.isOk = false →
      run m = Except.error "LegalizeJSInterface cannot handle partial tempRet0 imports") := by
  unfold ensureTempRet0Helpers run
  rcases hig : m.getImportedFunction ENV GET_TEMP_RET_0 with _ | ig <;>
    rcases his : m.getImportedFunction ENV SET_TEMP_RET_0 with _ | isf
  · rcases heg : m.getExportOrNull GET_TEMP_RET_0 with _ | eg <;>
      rcases hes : m.getExportOrNull SET_TEMP_RET_0 with _ | es <;>
      simp [ensureTempRet0Helpers, hig, his, heg, hes, Except.isOk, Except.toBool]
  · simp [ensureTempRet0Helpers, hig, his, Except.isOk, Except.toBool]
  · simp [ensureTempRet0Helpers, hig, his, Except.isOk, Except.toBool]
  · simp [ensureTempRet0Helpers, hig, his, Except.isOk, Except.toBool]

/-- A module importing only the getter half of the channel. -/
def halfImportModule : Module :=
  { functions := [ { name := "g", params := [], result := Ty.i32, vars := [],
                     type := "tg", module_ := "env", base := "getTempRet0",
                     body := Option.none } ],
    functionTypes := [ { name := "tg", params := [], result := Ty.i32 } ],
    exports := [], globals := [], table := { segments := [] } }

theorem claim_C3_fatal_iff_half_witness :
    (ensureTempRet0Helpers halfImportModule).2 = halfImportModule ∧
    run halfImportModule =
      Except.error "LegalizeJSInterface cannot handle partial tempRet0 imports" := by
  have hthm := claim_C3_fatal_iff_half halfImportModule
  have herr : (ensureTempRet0Helpers halfImportModule).1.isOk = false :=
    hthm.1.mpr (Or.inl (by decide))
  exact ⟨hthm.2.1 herr, hthm.2.2 herr⟩

/-! ### Lookup stability helpers -/

theorem find?_append_some {α : Type} {l r : List α} {p : α → Bool} {x : α}
    (h : l.find? p = some x) : (l ++ r).find? p = some x := by
  simp [List.find?_append, h]

theorem find?_append_none {α : Type} {l r : List α} {p : α → Bool}
    (h : l.find? p = Option.none) : (l ++ r).find? p = r.find? p := by
  simp [List.find?_append, h]

/-! ### Structural lemmas about the export stub -/

theorem legalizeExportParams_any (ps acc : List Ty) (ops : List Expression) :
    (legalizeExportParams ps acc ops).1.any (fun p => p == Ty.i64 || p == Ty.f32) =
      acc.any (fun p => p == Ty.i64 || p == Ty.f32) := by
  induction ps generalizing acc ops with
  | nil => rfl
  | cons p rest ih =>
    rcases p with _ | _ | _ | _ | _ <;>
      simp [legalizeExportParams, ih, List.any_append]

theorem makeLegalStubFunc_name (info : TempRet0Info) (func : Func) :
    (makeLegalStubFunc info func).name = "legalstub$" ++ func.name := by
  unfold makeLegalStubFunc
  split <;> try rfl
  split <;> rfl

theorem makeLegalStubFunc_module (info : TempRet0Info) (func : Func) :
    (makeLegalStubFunc info func).module_ = "" := by
  unfold makeLegalStubFunc
  split <;> try rfl
  split <;> rfl

theorem makeLegalStubFunc_legal (info : TempRet0Info) (func : Func) :
    isIllegalF (makeLegalStubFunc info func) = false := by
  have h := legalizeExportParams_any func.params [] []
  unfold makeLegalStubFunc isIllegalF isIllegalSig
  rcases hres : func.result with _ | _ | _ | _ | _ <;> simp [h]

theorem makeLegalStub_eq (info : TempRet0Info) (func : Func) (m : Module) :
    makeLegalStub info func m =
      (if (m.getFunctionOrNull ("legalstub$" ++ func.name)).isNone
       then m.addFunction (makeLegalStubFunc info func) else m,
       "legalstub$" ++ func.name) := rfl

/-! ### Claim C8: one shared stub per illegal exported function -/

/-- C8: the stub name is deterministically derived from the original
function name; a stub already present under that name is reused with the
module left untouched; when absent exactly one stub of that name is
appended; and processing two exports of the same illegal function yields
a single stub with both exports repointed to it. -/
theorem claim_C8_shared_stub (info : TempRet0Info) (func : Func) (m : Module) :
    (makeLegalStub info func m).2 = "legalstub$" ++ func.name ∧
    ((m.getFunctionOrNull ("legalstub$" ++ func.name)).isSome →
      (makeLegalStub info func m).1 = m) ∧
    ((m.getFunctionOrNull ("legalstub$" ++ func.name)).isNone →
      (makeLegalStub info func m).1.functions.map Func.name =
        m.functions.map Func.name ++ ["legalstub$" ++ func.name]) ∧
    (∀ ex1 ex2 : Export, ex1.kind = ExternalKind.Function →
      ex2.kind = ExternalKind.Function →
      ex1.value = func.name → ex2.value = func.name →
      m.getFunctionOrNull func.name = some func → isIllegalF func = true →
      (m.getFunctionOrNull ("legalstub$" ++ func.name)).isNone →
      (runExportLoop info m [ex1, ex2]).1.functions.map Func.name =
        m.functions.map Func.name ++ ["legalstub$" ++ func.name] ∧
      (runExportLoop info m [ex1, ex2]).2 =
        [{ ex1 with value := "legalstub$" ++ func.name },
         { ex2 with value := "legalstub$" ++ func.name }]) := by
  refine ⟨rfl, ?_, ?_, ?_⟩
  · intro h
    rcases hx : m.getFunctionOrNull ("legalstub$" ++ func.name) with _ | f
    · rw [hx] at h; simp at h
    · rw [makeLegalStub_eq, hx]; rfl
  · intro h
    rcases hx : m.getFunctionOrNull ("legalstub$" ++ func.name) with _ | f
    · rw [makeLegalStub_eq, hx]
      simp [Module.addFunction, makeLegalStubFunc_name]
    · rw [hx] at h; simp at h
  · intro ex1 ex2 hk1 hk2 hv1 hv2 hfind hill habs
    rcases hx : m.getFunctionOrNull ("legalstub$" ++ func.name) with _ | f
    swap
    · rw [hx] at habs; simp at habs
    have hlook2 : (m.addFunction (makeLegalStubFunc info func)).getFunctionOrNull
        func.name = some func := by
      unfold Module.getFunctionOrNull Module.addFunction at *
      exact find?_append_some hfind
    have hlookStub : (m.addFunction (makeLegalStubFunc info func)).getFunctionOrNull
        ("legalstub$" ++ func.name) =
        some (makeLegalStubFunc info func) := by
      unfold Module.getFunctionOrNull Module.addFunction at *
      rw [find?_append_none hx]
      simp [List.find?, makeLegalStubFunc_name]
    have hstep1 : makeLegalStub info func m =
        (m.addFunction (makeLegalStubFunc info func), "legalstub$" ++ func.name) := by
      rw [makeLegalStub_eq, hx]; rfl
    have hstep2 : makeLegalStub info func (m.addFunction (makeLegalStubFunc info func)) =
        (m.addFunction (makeLegalStubFunc info func), "legalstub$" ++ func.name) := by
      rw [makeLegalStub_eq, hlookStub]; rfl
    have hloop : runExportLoop info m [ex1, ex2] =
        (m.addFunction (makeLegalStubFunc info func),
         [{ ex1 with value := "legalstub$" ++ func.name },
          { ex2 with value := "legalstub$" ++ func.name }]) := by
      unfold runExportLoop
      rw [hk1, hv1, hfind]
      simp only [beq_self_eq_true, if_true, hill]
      rw [hstep1]
      unfold runExportLoop
      rw [hk2, hv2, hlook2]
      simp only [beq_self_eq_true, if_true, hill]
      rw [hstep2]
      simp [runExportLoop]
    rw [hloop]
    simp [Module.addFunction, makeLegalStubFunc_name]

/-- The channel info used by witnesses. -/
def infoW : TempRet0Info :=
  { getTempRet0 := GET_TEMP_RET_0, setTempRet0 := SET_TEMP_RET_0, hasGlobal := true }

/-- An illegal function used by witnesses. -/
def illegalFuncW : Func :=
  { name := "f", params := [Ty.i64], result := Ty.i64, vars := [], type := "",
    module_ := "", base := "", body := some (.getLocal 0 Ty.i64) }

/-- Two exports of the same illegal function. -/
def exW1 : Export := { name := "e1", value := "f", kind := ExternalKind.Function }

def exW2 : Export := { name := "e2", value := "f", kind := ExternalKind.Function }

/-- A module exporting the same illegal function twice. -/
def mW : Module :=
  { functions := [illegalFuncW], functionTypes := [], exports := [exW1, exW2],
    globals := [], table := { segments := [] } }

theorem claim_C8_shared_stub_witness :
    (makeLegalStub infoW illegalFuncW mW).2 = "legalstub$" ++ illegalFuncW.name ∧
    (runExportLoop infoW mW [exW1, exW2]).1.functions.map Func.name =
      mW.functions.map Func.name ++ ["legalstub$" ++ illegalFuncW.name] ∧
    (runExportLoop infoW mW [exW1, exW2]).2 =
      [{ exW1 with value := "legalstub$" ++ illegalFuncW.name },
       { exW2 with value := "legalstub$" ++ illegalFuncW.name }] := by
  have h := claim_C8_shared_stub infoW illegalFuncW mW
  have h4 := h.2.2.2 exW1 exW2 rfl rfl rfl rfl (by rfl) (by decide) (by rfl)
  exact ⟨h.1, h4.1, h4.2⟩

/-! ### Claim C4: the export stub result conversion -/

/-- C4: for an i64-result function the stub result is i32 and the body
stores the inner call into the fresh temporary, writes the high word
through the channel — a direct register write when the channel is
register-accessible, else a setter call — and yields the low word; an
f32 result gives an f64 stub result by promotion of the inner call; any
other result passes through unchanged with the plain inner call body. -/
theorem claim_C4_export_stub_result (info : TempRet0Info) (func : Func) :
    (func.result = Ty.i64 →
      (makeLegalStubFunc info func).result = Ty.i32 ∧
      (makeLegalStubFunc info func).vars = [Ty.i64] ∧
      (makeLegalStubFunc info func).body = some (.block [
        .setLocal (legalizeExportParams func.params [] []).1.length
          (.call func.name (legalizeExportParams func.params [] []).2 func.result),
        (if info.hasGlobal then
          Expression.setGlobal TEMP_RET_0
            (getI64High (legalizeExportParams func.params [] []).1.length)
        else
          Expression.call info.setTempRet0
            [getI64High (legalizeExportParams func.params [] []).1.length] Ty.none),
        getI64Low (legalizeExportParams func.params [] []).1.length])) ∧
    (func.result = Ty.f32 →
      (makeLegalStubFunc info func).result = Ty.f64 ∧
      (makeLegalStubFunc info func).body =
        some (.unary .PromoteFloat32
          (.call func.name (legalizeExportParams func.params [] []).2 func.result))) ∧
    (func.result ≠ Ty.i64 → func.result ≠ Ty.f32 →
      (makeLegalStubFunc info func).result = func.result ∧
      (makeLegalStubFunc info func).body =
        some (.call func.name (legalizeExportParams func.params [] []).2 func.result)) := by
  refine ⟨?_, ?_, ?_⟩
  · intro h; rw [makeLegalStubFunc, h]; exact ⟨rfl, rfl, rfl⟩
  · intro h; rw [makeLegalStubFunc, h]; exact ⟨rfl, rfl⟩
  · intro h1 h2
    rw [makeLegalStubFunc]
    rcases hres : func.result with _ | _ | _ | _ | _ <;> simp_all

theorem claim_C4_export_stub_result_witness :
    (makeLegalStubFunc infoW illegalFuncW).result = Ty.i32 ∧
    (makeLegalStubFunc infoW illegalFuncW).vars = [Ty.i64] ∧
    (makeLegalStubFunc infoW illegalFuncW).body = some (.block [
      .setLocal (legalizeExportParams illegalFuncW.params [] []).1.length
        (.call illegalFuncW.name
          (legalizeExportParams illegalFuncW.params [] []).2 illegalFuncW.result),
      (if infoW.hasGlobal then
        Expression.setGlobal TEMP_RET_0
          (getI64High (legalizeExportParams illegalFuncW.params [] []).1.length)
      else
        Expression.call infoW.setTempRet0
          [getI64High (legalizeExportParams illegalFuncW.params [] []).1.length] Ty.none),
      getI64Low (legalizeExportParams illegalFuncW.params [] []).1.length]) :=
  (claim_C4_export_stub_result infoW illegalFuncW).1 rfl

/-! ### More lookup helpers -/

theorem find?_filter_keep {α : Type} {l : List α} {p q : α → Bool} {x : α}
    (h : l.find? p = some x) (hq : q x = true) : (l.filter q).find? p = some x := by
  induction l with
  | nil => simp at h
  | cons a t ih =>
    by_cases hpa : p a
    · rw [List.find?_cons_of_pos _ hpa] at h
      cases h
      rw [List.filter_cons_of_pos hq, List.find?_cons_of_pos _ hpa]
    · rw [List.find?_cons_of_neg _ hpa] at h
      by_cases hqa : q a
      · rw [List.filter_cons_of_pos hqa, List.find?_cons_of_neg _ hpa]
        exact ih h
      · rw [List.filter_cons_of_neg (by simpa using hqa)]
        exact ih h

theorem find?_unique_mem {α : Type} {l : List α} {p : α → Bool} {x : α}
    (hx : x ∈ l) (hpx : p x = true) (huniq : ∀ y ∈ l, p y = true → y = x) :
    l.find? p = some x := by
  induction l with
  | nil => simp at hx
  | cons a t ih =>
    by_cases hpa : p a
    · rw [List.find?_cons_of_pos _ hpa]
      rw [huniq a (List.mem_cons_self a t) hpa]
    · rw [List.find?_cons_of_neg _ hpa]
      rcases List.mem_cons.mp hx with h | h
      · exact absurd (h ▸ hpx) hpa
      · exact ih h fun y hy => huniq y (List.mem_cons_of_mem a hy)

theorem find?_name_of_nodup {l : List Func} {f : Func}
    (hnd : (l.map Func.name).Nodup) (hf : f ∈ l) :
    l.find? (fun g => g.name == f.name) = some f := by
  apply find?_unique_mem hf (by simp)
  intro y hy hpy
  have hyname : y.name = f.name := by simpa using hpy
  have := List.Nodup.sublist (List.Sublist.refl _) hnd
  clear this
  induction l with
  | nil => simp at hf
  | cons a t ih =>
    rcases List.mem_cons.mp hy with rfl | hyt
    · rcases List.mem_cons.mp hf with rfl | hft
      · rfl
      · exfalso
        simp only [List.map_cons, List.nodup_cons] at hnd
        exact hnd.1 (hyname ▸ List.mem_map_of_mem Func.name hft)
    · rcases List.mem_cons.mp hf with rfl | hft
      · exfalso
        simp only [List.map_cons, List.nodup_cons] at hnd
        exact hnd.1 (hyname ▸ List.mem_map_of_mem Func.name hyt)
      · exact ih (by simp only [List.map_cons, List.nodup_cons] at hnd; exact hnd.2) hft hyt

/-! ### Well-formedness of modules -/

/-- Module well-formedness, the invariants of section 3 of the spec:
unique function and type names, imports referencing a type record
consistent with their own signature, function exports targeting existing
functions, and no name already carrying the reserved generated-name
marker (the spec leaves colliding reserved names undefined). -/
def wfModule (m : Module) : Prop :=
  (m.functions.map Func.name).Nodup ∧
  (m.functionTypes.map FunctionType.name).Nodup ∧
  (∀ f ∈ m.functions, f.imported = true →
    ∃ t, m.getFunctionTypeOrNull f.type = some t ∧
      t.params = f.params ∧ t.result = f.result) ∧
  (∀ e ∈ m.exports, e.kind = ExternalKind.Function →
    (m.getFunctionOrNull e.value).isSome) ∧
  (∀ f ∈ m.functions, hasLegalPref f.name = false) ∧
  (∀ t ∈ m.functionTypes, hasLegalPref t.name = false)

/-- When the module carries no channel imports and no channel exports,
the well-known getter/setter function names are still free, so the
creation path does not collide with unrelated functions. -/
def channelNamesFree (m : Module) : Prop :=
  m.getImportedFunction ENV GET_TEMP_RET_0 = Option.none →
  m.getImportedFunction ENV SET_TEMP_RET_0 = Option.none →
  m.getExportOrNull GET_TEMP_RET_0 = Option.none →
  m.getExportOrNull SET_TEMP_RET_0 = Option.none →
  m.getFunctionOrNull GET_TEMP_RET_0 = Option.none ∧
  m.getFunctionOrNull SET_TEMP_RET_0 = Option.none

/-- The import-loop test at line 76: an imported function whose type
record is illegal. -/
def reclassified (m : Module) (f : Func) : Bool :=
  f.imported && (match m.getFunctionTypeOrNull f.type with
    | some t => isIllegalT t
    | Option.none => false)

/-- A name that denotes a reclassified import of the module. -/
def reclassifiedName (m : Module) (n : String) : Bool :=
  match m.getFunctionOrNull n with
  | some f => reclassified m f
  | Option.none => false

/-- The post-state of a successful transformation: the channel probe is
already satisfied without touching the module, every function export
targets an existing legal-signature function, and every import is legal
both on its own signature and on its type record. -/
def LegalizedState (m : Module) : Prop :=
  (ensureTempRet0Helpers m).2 = m ∧
  (∃ info, (ensureTempRet0Helpers m).1 = Except.ok info) ∧
  (∀ ex ∈ m.exports, ex.kind = ExternalKind.Function →
    ∃ f, m.getFunctionOrNull ex.value = some f ∧ isIllegalF f = false) ∧
  (∀ f ∈ m.functions, f.imported = true → isIllegalF f = false ∧
    ∀ t, m.getFunctionTypeOrNull f.type = some t → isIllegalT t = false)

/-! ### The loops are identities on already-legal modules -/

theorem runExportLoop_id (info : TempRet0Info) (exs : List Export) (m : Module)
    (h : ∀ ex ∈ exs, ex.kind = ExternalKind.Function →
      ∃ f, m.getFunctionOrNull ex.value = some f ∧ isIllegalF f = false) :
    runExportLoop info m exs = (m, exs) := by
  induction exs with
  | nil => rfl
  | cons ex rest ih =>
    have hrest := ih fun e he => h e (List.mem_cons_of_mem ex he)
    unfold runExportLoop
    by_cases hk : ex.kind = ExternalKind.Function
    · obtain ⟨f, hf, hleg⟩ := h ex (List.mem_cons_self ex rest) hk
      rw [if_pos (by simpa using hk), hf]
      simp only [hleg, Bool.false_eq_true, if_false]
      rw [hrest]
    · rw [if_neg (by simpa using hk), hrest]

theorem runImportLoop_id (info : TempRet0Info) (fs : List Func) (m : Module)
    (map₀ : List (String × String))
    (h : ∀ f ∈ fs, f.imported = true →
      ∀ t, m.getFunctionTypeOrNull f.type = some t → isIllegalT t = false) :
    runImportLoop info m fs map₀ = (m, map₀) := by
  induction fs with
  | nil => rfl
  | cons f rest ih =>
    have hrest := ih fun g hg => h g (List.mem_cons_of_mem f hg)
    unfold runImportLoop
    by_cases him : f.imported = true
    · rw [if_pos him]
      rcases ht : m.getFunctionTypeOrNull f.type with _ | t
      · exact hrest
      · have hleg := h f (List.mem_cons_self f rest) him t ht
        simp only [hleg, Bool.false_eq_true, if_false]
        exact hrest
    · rw [if_neg him]
      exact hrest

/-- A module in the legalized post-state is a fixed point of run. -/
theorem run_of_legalized (m : Module) (h : LegalizedState m) : run m = Except.ok m := by
  obtain ⟨hens2, ⟨info, hens1⟩, hexp, himp⟩ := h
  unfold run
  have hpair : ensureTempRet0Helpers m = (Except.ok info, m) := by
    have heta : ensureTempRet0Helpers m =
        ((ensureTempRet0Helpers m).1, (ensureTempRet0Helpers m).2) := rfl
    rw [heta, hens1, hens2]
  rw [hpair]
  have hexploop : runExportLoop info m m.exports = (m, m.exports) :=
    runExportLoop_id info m.exports m hexp
  have himploop : runImportLoop info m m.functions [] = (m, []) :=
    runImportLoop_id info m.functions m [] fun f hf him t ht =>
      (himp f hf him).2 t ht
  dsimp only
  rw [hexploop]
  have hm2 : ({ m with exports := m.exports } : Module) = m := rfl
  rw [hm2]
  rw [himploop]
  simp

/-! ### Characterizing the export loop -/

theorem getFunctionOrNull_name {m : Module} {v : String} {f : Func}
    (h : m.getFunctionOrNull v = some f) : f.name = v := by
  have := List.find?_some h
  simpa using this

theorem getFunctionOrNull_append (m0 : Module) (l : List Func) (n : String) :
    ({ m0 with functions := m0.functions ++ l } : Module).getFunctionOrNull n =
      ((m0.getFunctionOrNull n).or (l.find? (fun f => f.name == n))) := by
  unfold Module.getFunctionOrNull
  exact List.find?_append

theorem lookup_prefix_none (m0 : Module)
    (hfree : ∀ f ∈ m0.functions, hasLegalPref f.name = false) (n : String)
    (hn : hasLegalPref n = true) : m0.getFunctionOrNull n = Option.none := by
  unfold Module.getFunctionOrNull
  rw [List.find?_eq_none]
  intro g hg
  simp only [beq_iff_eq]
  exact ne_of_hasLegalPref (hfree g hg) hn

theorem lookupT_prefix_none (m0 : Module)
    (hfree : ∀ t ∈ m0.functionTypes, hasLegalPref t.name = false) (n : String)
    (hn : hasLegalPref n = true) : m0.getFunctionTypeOrNull n = Option.none := by
  unfold Module.getFunctionTypeOrNull
  rw [List.find?_eq_none]
  intro g hg
  simp only [beq_iff_eq]
  exact ne_of_hasLegalPref (hfree g hg) hn

/-- What the export loop does to one export, seen from the loop-entry
module. -/
def exportAfter (m : Module) (ex : Export) : Export :=
  if ex.kind == ExternalKind.Function then
    match m.getFunctionOrNull ex.value with
    | some f => if isIllegalF f then { ex with value := "legalstub$" ++ f.name } else ex
    | Option.none => ex
  else ex

/-- The functions the export loop appends: each is the legal stub of an
illegal function of the loop-entry module. -/
def ExportStubs (info : TempRet0Info) (m0 : Module) (stubs : List Func) : Prop :=
  ∀ s ∈ stubs, ∃ g, m0.getFunctionOrNull g.name = some g ∧ isIllegalF g = true ∧
    s = makeLegalStubFunc info g

theorem lookup_stub_cases (info : TempRet0Info) (m0 : Module) (stubs : List Func)
    (hfree : ∀ f ∈ m0.functions, hasLegalPref f.name = false)
    (hstubs : ExportStubs info m0 stubs) (f : Func)
    (hf : m0.getFunctionOrNull f.name = some f) :
    ({ m0 with functions := m0.functions ++ stubs } : Module).getFunctionOrNull
        ("legalstub$" ++ f.name) = Option.none ∨
    ({ m0 with functions := m0.functions ++ stubs } : Module).getFunctionOrNull
        ("legalstub$" ++ f.name) = some (makeLegalStubFunc info f) := by
  rw [getFunctionOrNull_append,
    lookup_prefix_none m0 hfree _ (hasLegalPref_legalstub f.name)]
  rcases hs : stubs.find? (fun g => g.name == "legalstub$" ++ f.name) with _ | s
  · left; rw [hs]; rfl
  · right
    obtain ⟨g, hg, _, hsg⟩ := hstubs s (List.mem_of_find?_eq_some hs)
    have hname : s.name = "legalstub$" ++ f.name := by
      have := List.find?_some hs
      simpa using this
    rw [hsg, makeLegalStubFunc_name] at hname
    have hgf : g.name = f.name := append_left_cancel_string hname
    rw [hgf] at hg
    rw [hf] at hg
    cases hg
    rw [hs, hsg]
    rfl

theorem runExportLoop_spec (info : TempRet0Info) (exs : List Export) :
    ∀ (m0 : Module) (stubs : List Func),
    (∀ f ∈ m0.functions, hasLegalPref f.name = false) →
    ExportStubs info m0 stubs →
    (∀ ex ∈ exs, ex.kind = ExternalKind.Function → (m0.getFunctionOrNull ex.value).isSome) →
    ((m0.functions ++ stubs).map Func.name).Nodup →
    ∃ stubs2,
      ExportStubs info m0 (stubs ++ stubs2) ∧
      ((m0.functions ++ (stubs ++ stubs2)).map Func.name).Nodup ∧
      (∀ ex ∈ exs, ex.kind = ExternalKind.Function →
        ∀ f, m0.getFunctionOrNull ex.value = some f → isIllegalF f = true →
        ∃ s ∈ stubs ++ stubs2, s = makeLegalStubFunc info f) ∧
      runExportLoop info { m0 with functions := m0.functions ++ stubs } exs =
        ({ m0 with functions := m0.functions ++ (stubs ++ stubs2) },
         exs.map (exportAfter m0)) := by
  induction exs with
  | nil =>
    intro m0 stubs hfree hstubs hex hnd
    refine ⟨[], by simpa using hstubs, by simpa using hnd, ?_, by simp [runExportLoop]⟩
    intro ex hx
    exact absurd hx (List.not_mem_nil ex)
  | cons ex rest ih =>
    intro m0 stubs hfree hstubs hex hnd
    have hexrest : ∀ e ∈ rest, e.kind = ExternalKind.Function →
        (m0.getFunctionOrNull e.value).isSome :=
      fun e he => hex e (List.mem_cons_of_mem ex he)
    by_cases hk : ex.kind = ExternalKind.Function
    · have hsome := hex ex (List.mem_cons_self ex rest) hk
      rcases hf : m0.getFunctionOrNull ex.value with _ | f
      · rw [hf] at hsome; simp at hsome
      have hMl : ({ m0 with functions := m0.functions ++ stubs } : Module).getFunctionOrNull
          ex.value = some f := by
        rw [getFunctionOrNull_append, hf]; rfl
      have hfn : f.name = ex.value := getFunctionOrNull_name hf
      have hfl : m0.getFunctionOrNull f.name = some f := by rw [hfn]; exact hf
      by_cases hill : isIllegalF f = true
      · -- illegal export target: a stub is looked up or created
        rcases lookup_stub_cases info m0 stubs hfree hstubs f hfl with hlook | hlook
        · -- stub absent: created
          have hstubs2 : ExportStubs info m0 (stubs ++ [makeLegalStubFunc info f]) := by
            intro s hs
            rcases List.mem_append.mp hs with h | h
            · exact hstubs s h
            · simp only [List.mem_singleton] at h
              exact ⟨f, hfl, hill, h⟩
          have hnotin : "legalstub$" ++ f.name ∉
              (m0.functions ++ stubs).map Func.name := by
            intro hmem
            obtain ⟨y, hy, hyname⟩ := List.mem_map.mp hmem
            have : ({ m0 with functions := m0.functions ++ stubs } : Module).getFunctionOrNull
                ("legalstub$" ++ f.name) ≠ Option.none := by
              show (m0.functions ++ stubs).find?
                (fun g => g.name == "legalstub$" ++ f.name) ≠ Option.none
              intro hno
              rw [List.find?_eq_none] at hno
              exact hno y hy (by simp [hyname])
            exact this hlook
          have hnd2 : ((m0.functions ++ (stubs ++ [makeLegalStubFunc info f])).map
              Func.name).Nodup := by
            rw [← List.append_assoc, List.map_append]
            rw [List.nodup_append]
            refine ⟨hnd, by simp, ?_⟩
            intro a ha hb
            simp only [List.map_cons, List.map_nil, List.mem_singleton,
              makeLegalStubFunc_name] at hb
            rw [hb] at ha
            exact hnotin ha
          obtain ⟨stubs2, hstubs3, hnd3, hexists, hloop⟩ :=
            ih m0 (stubs ++ [makeLegalStubFunc info f]) hfree hstubs2 hexrest hnd2
          refine ⟨[makeLegalStubFunc info f] ++ stubs2,
            by rw [List.append_assoc] at hstubs3; exact hstubs3,
            by rw [List.append_assoc] at hnd3; exact hnd3, ?_, ?_⟩
          · intro e he hek g hg hgill
            rcases List.mem_cons.mp he with rfl | he2
            · have : g = f := by
                rw [hg] at hf; cases hf; rfl
              refine ⟨makeLegalStubFunc info f, ?_, by rw [this]⟩
              exact List.mem_append.mpr (Or.inr (List.mem_append.mpr
                (Or.inl (List.mem_singleton.mpr rfl))))
            · obtain ⟨s, hs, hseq⟩ := hexists e he2 hek g hg hgill
              rw [List.append_assoc] at hs
              exact ⟨s, hs, hseq⟩
          · unfold runExportLoop
            rw [if_pos (by simpa using hk), hMl]
            simp only [hill, if_true]
            rw [makeLegalStub_eq, hlook]
            simp only [Option.isNone_none, if_true]
            have haddeq : ({ m0 with functions := m0.functions ++ stubs } : Module).addFunction
                (makeLegalStubFunc info f) =
                { m0 with functions := m0.functions ++ (stubs ++ [makeLegalStubFunc info f]) } := by
              simp [Module.addFunction]
            rw [haddeq, hloop]
            have hexa : exportAfter m0 ex = { ex with value := "legalstub$" ++ f.name } := by
              unfold exportAfter
              rw [if_pos (by simpa using hk), hf]
              simp [hill]
            simp only [List.map_cons, hexa, ← List.append_assoc]
        · -- stub present: reused
          obtain ⟨stubs2, hstubs3, hnd3, hexists, hloop⟩ := ih m0 stubs hfree hstubs hexrest hnd
          refine ⟨stubs2, hstubs3, hnd3, ?_, ?_⟩
          · intro e he hek g hg hgill
            rcases List.mem_cons.mp he with rfl | he2
            · have hgf : g = f := by
                rw [hg] at hf; cases hf; rfl
              have hmem : makeLegalStubFunc info f ∈ m0.functions ++ stubs := by
                have hlook2 : (m0.functions ++ stubs).find?
                    (fun g => g.name == "legalstub$" ++ f.name) =
                    some (makeLegalStubFunc info f) := hlook
                exact List.mem_of_find?_eq_some hlook2
              rcases List.mem_append.mp hmem with h0 | hsb
              · exfalso
                have := hfree _ h0
                rw [makeLegalStubFunc_name] at this
                rw [hasLegalPref_legalstub f.name] at this
                exact Bool.false_ne_true this.symm
              · exact ⟨makeLegalStubFunc info f, List.mem_append.mpr (Or.inl hsb), by rw [hgf]⟩
            · exact hexists e he2 hek g hg hgill
          · unfold runExportLoop
            rw [if_pos (by simpa using hk), hMl]
            simp only [hill, if_true]
            rw [makeLegalStub_eq, hlook]
            simp only [Option.isNone_some, Bool.false_eq_true, if_false]
            rw [hloop]
            have hexa : exportAfter m0 ex = { ex with value := "legalstub$" ++ f.name } := by
              unfold exportAfter
              rw [if_pos (by simpa using hk), hf]
              simp [hill]
            simp only [List.map_cons, hexa]
      · -- legal export target: untouched
        obtain ⟨stubs2, hstubs3, hnd3, hexists, hloop⟩ := ih m0 stubs hfree hstubs hexrest hnd
        refine ⟨stubs2, hstubs3, hnd3, ?_, ?_⟩
        · intro e he hek g hg hgill
          rcases List.mem_cons.mp he with rfl | he2
          · exfalso
            rw [hg] at hf; cases hf
            exact hill hgill
          · exact hexists e he2 hek g hg hgill
        · unfold runExportLoop
          rw [if_pos (by simpa using hk), hMl]
          simp only [hill, Bool.false_eq_true, if_false]
          rw [hloop]
          have hexa : exportAfter m0 ex = ex := by
            unfold exportAfter
            rw [if_pos (by simpa using hk), hf]
            simp [hill]
          simp only [List.map_cons, hexa]
    · obtain ⟨stubs2, hstubs3, hnd3, hexists, hloop⟩ := ih m0 stubs hfree hstubs hexrest hnd
      refine ⟨stubs2, hstubs3, hnd3, ?_, ?_⟩
      · intro e he hek g hg hgill
        rcases List.mem_cons.mp he with rfl | he2
        · exact absurd hek hk
        · exact hexists e he2 hek g hg hgill
      · unfold runExportLoop
        rw [if_neg (by simpa using hk)]
        rw [hloop]
        have hexa : exportAfter m0 ex = ex := by
          unfold exportAfter
          rw [if_neg (by simpa using hk)]
        simp only [List.map_cons, hexa]

/-! ### Characterizing the import loop -/

/-- The type record an import resolves to (junk default for the
unreachable unresolved case). -/
def recordOrDefault (m : Module) (f : Func) : FunctionType :=
  (m.getFunctionTypeOrNull f.type).getD { name := "", params := [], result := Ty.none }

/-- The name substitution the import loop applies to the table. -/
def renameFn (pairs : List (String × String)) (n : String) : String :=
  match mapFind pairs n with
  | some s => s
  | Option.none => n

theorem getFunctionTypeOrNull_addFuncs (M : Module) (l : List Func) (n : String) :
    ({ M with functions := M.functions ++ l } : Module).getFunctionTypeOrNull n =
      M.getFunctionTypeOrNull n := rfl

theorem getFunctionTypeOrNull_append (M : Module) (l : List FunctionType) (n : String) :
    ({ M with functionTypes := M.functionTypes ++ l } : Module).getFunctionTypeOrNull n =
      ((M.getFunctionTypeOrNull n).or (l.find? (fun t => t.name == n))) := by
  unfold Module.getFunctionTypeOrNull
  exact List.find?_append

theorem makeLegalStubForCalledImport_eq (info : TempRet0Info) (im : Func)
    (t : FunctionType) (M : Module)
    (h1 : M.getFunctionOrNull ("legalfunc$" ++ im.name) = Option.none)
    (h2 : M.getFunctionOrNull ("legalimport$" ++ im.name) = Option.none)
    (h3 : M.getFunctionTypeOrNull ("legaltype$" ++ im.name) = Option.none) :
    makeLegalStubForCalledImport info im t M =
      ({ M with
         functions := M.functions ++
           [makeLegalFuncStub info im t, makeLegalImportFunc im t],
         functionTypes := M.functionTypes ++ [makeLegalImportType im t] },
       "legalfunc$" ++ im.name) := by
  unfold makeLegalStubForCalledImport
  dsimp only
  have hn1 : (makeLegalFuncStub info im t).name = "legalfunc$" ++ im.name := rfl
  have hn2 : (makeLegalImportFunc im t).name = "legalimport$" ++ im.name := rfl
  have hn3 : (makeLegalImportType im t).name = "legaltype$" ++ im.name := rfl
  rw [hn1, hn2, hn3, h1]
  simp only [Option.isNone_none, if_true]
  have hA : ((M.addFunction (makeLegalFuncStub info im t)).getFunctionTypeOrNull
      ("legaltype$" ++ im.name)) = Option.none := h3
  rw [hA]
  simp only [Option.isNone_none, if_true]
  have hB : (((M.addFunction (makeLegalFuncStub info im t)).addFunctionType
      (makeLegalImportType im t)).getFunctionOrNull ("legalimport$" ++ im.name)) =
      Option.none := by
    show ((({ M with functions := M.functions ++ [makeLegalFuncStub info im t] } : Module)
      ).addFunctionType (makeLegalImportType im t)).getFunctionOrNull
      ("legalimport$" ++ im.name) = Option.none
    have : (({ M with functions := M.functions ++ [makeLegalFuncStub info im t] } : Module)
        ).addFunctionType (makeLegalImportType im t) =
        { M with
          functions := M.functions ++ [makeLegalFuncStub info im t],
          functionTypes := M.functionTypes ++ [makeLegalImportType im t] } := rfl
    rw [this]
    show (M.functions ++ [makeLegalFuncStub info im t]).find?
      (fun f => f.name == "legalimport$" ++ im.name) = Option.none
    rw [find?_append_none h2]
    simp only [List.find?]
    rw [hn1]
    have : ("legalfunc$" ++ im.name == "legalimport$" ++ im.name) = false := by
      simp only [beq_eq_false_iff_ne, ne_eq]
      exact legalfunc_ne_legalimport im.name im.name
    rw [this]
  rw [hB]
  simp only [Option.isNone_none, if_true]
  simp [Module.addFunction, Module.addFunctionType]

theorem renameFn_step (pairs : List (String × String)) (key s : String)
    (hkeys : ∀ q ∈ pairs, hasLegalPref q.1 = false) (hs : hasLegalPref s = true)
    (n : String) :
    renameFn pairs (if n == key then s else n) = renameFn ((key, s) :: pairs) n := by
  by_cases hn : n = key
  · rw [if_pos (by simpa using hn)]
    have h1 : mapFind pairs s = Option.none := by
      unfold mapFind
      have hf : List.find? (fun p => p.1 == s) pairs = Option.none := by
        rw [List.find?_eq_none]
        intro q hq
        simp only [beq_iff_eq]
        exact ne_of_hasLegalPref (hkeys q hq) hs
      rw [hf]
      rfl
    unfold renameFn
    rw [h1]
    have h2 : mapFind ((key, s) :: pairs) n = some s := by
      unfold mapFind
      rw [List.find?_cons_of_pos _ (by simpa using hn.symm)]
      rfl
    rw [h2]
  · rw [if_neg (by simpa using hn)]
    unfold renameFn
    have h2 : mapFind ((key, s) :: pairs) n = mapFind pairs n := by
      unfold mapFind
      rw [List.find?_cons_of_neg _ (by simpa using fun h => hn h.symm)]
    rw [h2]

theorem reclassified_imported {m : Module} {f : Func}
    (h : reclassified m f = true) : f.imported = true := by
  unfold reclassified at h
  exact (Bool.and_eq_true_iff.mp h).1

theorem runImportLoop_spec (info : TempRet0Info) (fs : List Func) :
    ∀ (M : Module) (map₀ : List (String × String)),
    (∀ f ∈ fs, f.imported = true → (M.getFunctionTypeOrNull f.type).isSome) →
    (∀ f ∈ fs, f.imported = true → hasLegalPref f.name = false) →
    ((fs.filter (fun f => f.imported)).map Func.name).Nodup →
    (∀ f ∈ fs, f.imported = true →
      M.getFunctionOrNull ("legalfunc$" ++ f.name) = Option.none ∧
      M.getFunctionOrNull ("legalimport$" ++ f.name) = Option.none) →
    (∀ f ∈ fs, f.imported = true →
      M.getFunctionTypeOrNull ("legaltype$" ++ f.name) = Option.none) →
    runImportLoop info M fs map₀ =
      ({ M with
         functions := M.functions ++ (fs.filter (reclassified M)).flatMap (fun f =>
           [makeLegalFuncStub info f (recordOrDefault M f),
            makeLegalImportFunc f (recordOrDefault M f)]),
         functionTypes := M.functionTypes ++
           (fs.filter (reclassified M)).map
             (fun f => makeLegalImportType f (recordOrDefault M f)),
         table := { segments := M.table.segments.map (List.map (renameFn
           ((fs.filter (reclassified M)).map
             (fun f => (f.name, "legalfunc$" ++ f.name))))) } },
       map₀ ++ (fs.filter (reclassified M)).map
         (fun f => (f.name, "legalfunc$" ++ f.name))) := by
  induction fs with
  | nil =>
    intro M map₀ _ _ _ _ _
    have hren : ∀ seg : List String, List.map (renameFn []) seg = seg := by
      intro seg
      have hid : renameFn ([] : List (String × String)) = id := by
        funext n
        simp [renameFn, mapFind]
      rw [hid, List.map_id]
    have hseg : List.map (List.map (renameFn [])) M.table.segments = M.table.segments :=
      (List.map_congr_left (fun seg _ => hren seg)).trans (List.map_id _)
    simp [runImportLoop, hseg]
  | cons im rest ih =>
    intro M map₀ hres hfs hnodup habsF habsT
    have hresR : ∀ f ∈ rest, f.imported = true → (M.getFunctionTypeOrNull f.type).isSome :=
      fun f hf => hres f (List.mem_cons_of_mem im hf)
    have hfsR : ∀ f ∈ rest, f.imported = true → hasLegalPref f.name = false :=
      fun f hf => hfs f (List.mem_cons_of_mem im hf)
    have habsFR : ∀ f ∈ rest, f.imported = true →
        M.getFunctionOrNull ("legalfunc$" ++ f.name) = Option.none ∧
        M.getFunctionOrNull ("legalimport$" ++ f.name) = Option.none :=
      fun f hf => habsF f (List.mem_cons_of_mem im hf)
    have habsTR : ∀ f ∈ rest, f.imported = true →
        M.getFunctionTypeOrNull ("legaltype$" ++ f.name) = Option.none :=
      fun f hf => habsT f (List.mem_cons_of_mem im hf)
    by_cases him : im.imported = true
    · have hsome := hres im (List.mem_cons_self im rest) him
      rcases ht : M.getFunctionTypeOrNull im.type with _ | t
      · rw [ht] at hsome; simp at hsome
      have hnodupR : ((rest.filter (fun f => f.imported)).map Func.name).Nodup := by
        rw [List.filter_cons_of_pos him] at hnodup
        simp only [List.map_cons, List.nodup_cons] at hnodup
        exact hnodup.2
      have hnotin : im.name ∉ (rest.filter (fun f => f.imported)).map Func.name := by
        rw [List.filter_cons_of_pos him] at hnodup
        simp only [List.map_cons, List.nodup_cons] at hnodup
        exact hnodup.1
      have hneq : ∀ f ∈ rest, f.imported = true → im.name ≠ f.name := by
        intro f hf hfim he
        exact hnotin (he ▸ List.mem_map_of_mem Func.name (List.mem_filter.mpr ⟨hf, hfim⟩))
      by_cases hill : isIllegalT t = true
      · -- the head import is reclassified
        have hrecl : reclassified M im = true := by
          simp [reclassified, him, ht, hill]
        have hrecd : recordOrDefault M im = t := by
          simp [recordOrDefault, ht]
        obtain ⟨habsF1, habsF2⟩ := habsF im (List.mem_cons_self im rest) him
        have habsT1 := habsT im (List.mem_cons_self im rest) him
        have hmk := makeLegalStubForCalledImport_eq info im t M habsF1 habsF2 habsT1
        set fstub := makeLegalFuncStub info im t with hfstub
        set limp := makeLegalImportFunc im t with hlimp
        set ltyp := makeLegalImportType im t with hltyp
        set sname := "legalfunc$" ++ im.name with hsname
        set M2 : Module :=
          { M with
            functions := M.functions ++ [fstub, limp],
            functionTypes := M.functionTypes ++ [ltyp],
            table :=
              { segments :=
                  M.table.segments.map
                    (List.map (fun n => if n == im.name then sname else n)) } } with hM2
        have hstep : runImportLoop info M (im :: rest) map₀ =
            runImportLoop info M2 rest (map₀ ++ [(im.name, sname)]) := by
          conv_lhs => unfold runImportLoop
          dsimp only
          rw [if_pos him, ht]
          dsimp only
          rw [if_pos hill, hmk]
          dsimp only
          rw [hM2]
          unfold rewriteTable
          exact rfl
        rw [hstep]
        -- re-established preconditions on M2
        have hres2 : ∀ f ∈ rest, f.imported = true →
            (M2.getFunctionTypeOrNull f.type).isSome := by
          intro f hf hfim
          have := hresR f hf hfim
          rcases hu : M.getFunctionTypeOrNull f.type with _ | u
          · rw [hu] at this; simp at this
          have : M2.getFunctionTypeOrNull f.type = some u := by
            show (M.functionTypes ++ [ltyp]).find? (fun q => q.name == f.type) = some u
            exact find?_append_some hu
          rw [this]; rfl
        have habsF2R : ∀ f ∈ rest, f.imported = true →
            M2.getFunctionOrNull ("legalfunc$" ++ f.name) = Option.none ∧
            M2.getFunctionOrNull ("legalimport$" ++ f.name) = Option.none := by
          intro f hf hfim
          have hne := hneq f hf hfim
          constructor
          · show (M.functions ++ [fstub, limp]).find?
              (fun g => g.name == "legalfunc$" ++ f.name) = Option.none
            rw [find?_append_none (habsFR f hf hfim).1]
            have e1 : (fstub.name == "legalfunc$" ++ f.name) = false := by
              simp only [hfstub]
              show (("legalfunc$" ++ im.name : String) == "legalfunc$" ++ f.name) = false
              simp only [beq_eq_false_iff_ne, ne_eq]
              intro h
              exact hne (append_left_cancel_string h)
            have e2 : (limp.name == "legalfunc$" ++ f.name) = false := by
              simp only [hlimp]
              show (("legalimport$" ++ im.name : String) == "legalfunc$" ++ f.name) = false
              simp only [beq_eq_false_iff_ne, ne_eq]
              intro h
              exact legalfunc_ne_legalimport f.name im.name h.symm
            simp [List.find?, e1, e2]
          · show (M.functions ++ [fstub, limp]).find?
              (fun g => g.name == "legalimport$" ++ f.name) = Option.none
            rw [find?_append_none (habsFR f hf hfim).2]
            have e1 : (fstub.name == "legalimport$" ++ f.name) = false := by
              simp only [hfstub]
              show (("legalfunc$" ++ im.name : String) == "legalimport$" ++ f.name) = false
              simp only [beq_eq_false_iff_ne, ne_eq]
              exact legalfunc_ne_legalimport im.name f.name
            have e2 : (limp.name == "legalimport$" ++ f.name) = false := by
              simp only [hlimp]
              show (("legalimport$" ++ im.name : String) == "legalimport$" ++ f.name) = false
              simp only [beq_eq_false_iff_ne, ne_eq]
              intro h
              exact hne (append_left_cancel_string h)
            simp [List.find?, e1, e2]
        have habsT2R : ∀ f ∈ rest, f.imported = true →
            M2.getFunctionTypeOrNull ("legaltype$" ++ f.name) = Option.none := by
          intro f hf hfim
          show (M.functionTypes ++ [ltyp]).find?
            (fun q => q.name == "legaltype$" ++ f.name) = Option.none
          rw [find?_append_none (habsTR f hf hfim)]
          have e1 : (ltyp.name == "legaltype$" ++ f.name) = false := by
            simp only [hltyp]
            show (("legaltype$" ++ im.name : String) == "legaltype$" ++ f.name) = false
            simp only [beq_eq_false_iff_ne, ne_eq]
            intro h
            exact hneq f hf hfim (append_left_cancel_string h)
          simp [List.find?, e1]
        rw [ih M2 (map₀ ++ [(im.name, sname)]) hres2 hfsR hnodupR habsF2R habsT2R]
        -- translate the M2 statement back to M
        have hreclEq : ∀ f ∈ rest, reclassified M2 f = reclassified M f := by
          intro f hf
          unfold reclassified
          by_cases hfim : f.imported = true
          · have := hresR f hf hfim
            rcases hu : M.getFunctionTypeOrNull f.type with _ | u
            · rw [hu] at this; simp at this
            have h2 : M2.getFunctionTypeOrNull f.type = some u := by
              show (M.functionTypes ++ [ltyp]).find? (fun q => q.name == f.type) = some u
              exact find?_append_some hu
            rw [h2]
          · have : f.imported = false := by simpa using hfim
            rw [this]
            simp
        have hrecdEq : ∀ f ∈ rest, f.imported = true →
            recordOrDefault M2 f = recordOrDefault M f := by
          intro f hf hfim
          have := hresR f hf hfim
          rcases hu : M.getFunctionTypeOrNull f.type with _ | u
          · rw [hu] at this; simp at this
          have h2 : M2.getFunctionTypeOrNull f.type = some u := by
            show (M.functionTypes ++ [ltyp]).find? (fun q => q.name == f.type) = some u
            exact find?_append_some hu
          unfold recordOrDefault
          rw [h2, hu]
        have hfiltEq : rest.filter (reclassified M2) = rest.filter (reclassified M) :=
          List.filter_congr hreclEq
        have hmemImp : ∀ f ∈ rest.filter (reclassified M), f.imported = true := by
          intro f hf
          exact reclassified_imported (List.of_mem_filter hf)
        have hflatEq : (rest.filter (reclassified M2)).flatMap (fun f =>
            [makeLegalFuncStub info f (recordOrDefault M2 f),
             makeLegalImportFunc f (recordOrDefault M2 f)]) =
            (rest.filter (reclassified M)).flatMap (fun f =>
            [makeLegalFuncStub info f (recordOrDefault M f),
             makeLegalImportFunc f (recordOrDefault M f)]) := by
          rw [hfiltEq]
          unfold List.flatMap
          congr 1
          apply List.map_congr_left
          intro f hf
          rw [hrecdEq f (List.mem_of_mem_filter hf) (hmemImp f hf)]
        have hmapTEq : (rest.filter (reclassified M2)).map
            (fun f => makeLegalImportType f (recordOrDefault M2 f)) =
            (rest.filter (reclassified M)).map
            (fun f => makeLegalImportType f (recordOrDefault M f)) := by
          rw [hfiltEq]
          apply List.map_congr_left
          intro f hf
          rw [hrecdEq f (List.mem_of_mem_filter hf) (hmemImp f hf)]
        have hpairEq : (rest.filter (reclassified M2)).map
            (fun f => (f.name, "legalfunc$" ++ f.name)) =
            (rest.filter (reclassified M)).map
            (fun f => (f.name, "legalfunc$" ++ f.name)) := by
          rw [hfiltEq]
        rw [hflatEq, hmapTEq, hpairEq]
        -- assemble the four components
        rw [List.filter_cons_of_pos hrecl]
        set pairsR := (rest.filter (reclassified M)).map
          (fun f => (f.name, "legalfunc$" ++ f.name)) with hpairsR
        have hkeysFree : ∀ q ∈ pairsR, hasLegalPref q.1 = false := by
          intro q hq
          rw [hpairsR] at hq
          obtain ⟨f, hf, hfq⟩ := List.mem_map.mp hq
          rw [← hfq]
          exact hfs f (List.mem_cons_of_mem im (List.mem_of_mem_filter hf))
            (hmemImp f hf)
        have htableEq : M2.table.segments.map (List.map (renameFn pairsR)) =
            M.table.segments.map (List.map (renameFn ((im.name, sname) :: pairsR))) := by
          show (M.table.segments.map
            (List.map (fun n => if n == im.name then sname else n))).map
              (List.map (renameFn pairsR)) = _
          rw [List.map_map]
          apply List.map_congr_left
          intro seg _
          show List.map (renameFn pairsR)
            (List.map (fun n => if n == im.name then sname else n) seg) = _
          rw [List.map_map]
          apply List.map_congr_left
          intro n _
          exact renameFn_step pairsR im.name sname hkeysFree
            (hsname ▸ hasLegalPref_legalfunc im.name) n
        rw [htableEq]
        simp only [List.flatMap_cons, List.map_cons, hrecd, hM2]
        simp [List.append_assoc]
      · -- the head import is legal: skipped
        have hrecl : reclassified M im = false := by
          simp [reclassified, him, ht, hill]
        have hstep : runImportLoop info M (im :: rest) map₀ =
            runImportLoop info M rest map₀ := by
          conv_lhs => unfold runImportLoop
          dsimp only
          rw [if_pos him, ht]
          dsimp only
          rw [if_neg hill]
        rw [hstep, ih M map₀ hresR hfsR hnodupR habsFR habsTR,
          List.filter_cons_of_neg (by simp [hrecl])]
    · -- the head is not imported: skipped
      have hrecl : reclassified M im = false := by
        unfold reclassified
        simp only [him]
        simp [show im.imported = false by simpa using him]
      have hnodupR : ((rest.filter (fun f => f.imported)).map Func.name).Nodup := by
        rw [List.filter_cons_of_neg (by simpa using him)] at hnodup
        exact hnodup
      have hstep : runImportLoop info M (im :: rest) map₀ =
          runImportLoop info M rest map₀ := by
        conv_lhs => unfold runImportLoop
        dsimp only
        rw [if_neg him]
      rw [hstep, ih M map₀ hresR hfsR hnodupR habsFR habsTR,
        List.filter_cons_of_neg (by simp [hrecl])]

/-! ### The removal fold and the body fix-up -/

theorem fixFunc_fields (map : List (String × String)) (f : Func) :
    (fixFunc map f).name = f.name ∧ (fixFunc map f).params = f.params ∧
    (fixFunc map f).result = f.result ∧ (fixFunc map f).module_ = f.module_ ∧
    (fixFunc map f).base = f.base ∧ (fixFunc map f).type = f.type := by
  unfold fixFunc
  rcases f.body with _ | b <;> exact ⟨rfl, rfl, rfl, rfl, rfl, rfl⟩

theorem fixFunc_imported (map : List (String × String)) (f : Func) :
    (fixFunc map f).imported = f.imported := by
  unfold Func.imported
  rw [(fixFunc_fields map f).2.2.2.1]

theorem fixFunc_illegal (map : List (String × String)) (f : Func) :
    isIllegalF (fixFunc map f) = isIllegalF f := by
  unfold isIllegalF
  rw [(fixFunc_fields map f).2.1, (fixFunc_fields map f).2.2.1]

theorem foldl_removeFunction (pairs : List (String × String)) :
    ∀ m : Module,
    pairs.foldl (fun acc p => acc.removeFunction p.1) m =
      { m with
        functions := m.functions.filter (fun f => pairs.all (fun p => f.name != p.1)) } := by
  induction pairs with
  | nil =>
    intro m
    simp [List.foldl]
  | cons q qs ih =>
    intro m
    show qs.foldl (fun acc p => acc.removeFunction p.1) (m.removeFunction q.1) = _
    rw [ih (m.removeFunction q.1)]
    unfold Module.removeFunction
    simp only [List.filter_filter]
    congr 1
    apply List.filter_congr
    intro f _
    simp [List.all_cons, Bool.and_comm]

/-! ### Legality of the import-side records -/

theorem map_renameFn_nil (segs : List (List String)) :
    segs.map (List.map (renameFn [])) = segs := by
  have hid : renameFn ([] : List (String × String)) = id := by
    funext n
    simp [renameFn, mapFind]
  rw [hid]
  exact (List.map_congr_left fun seg _ => List.map_id seg).trans (List.map_id segs)

theorem legalizeImportParams_any (ps acc1 acc2 : List Ty) (ops : List Expression) :
    (legalizeImportParams ps acc1 acc2 ops).1.any (fun p => p == Ty.i64 || p == Ty.f32) =
      acc1.any (fun p => p == Ty.i64 || p == Ty.f32) := by
  induction ps generalizing acc1 acc2 ops with
  | nil => rfl
  | cons p rest ih =>
    rcases p with _ | _ | _ | _ | _ <;>
      simp [legalizeImportParams, ih, List.any_append]

theorem legalImportResult_legal (t : FunctionType) :
    (legalImportResult t == Ty.i64 || legalImportResult t == Ty.f32) = false := by
  unfold legalImportResult
  rcases t.result with _ | _ | _ | _ | _ <;> rfl

theorem makeLegalImportFunc_legal (im : Func) (t : FunctionType) :
    isIllegalF (makeLegalImportFunc im t) = false := by
  unfold isIllegalF isIllegalSig makeLegalImportFunc
  simp only [legalizeImportParams_any, List.any_nil, Bool.false_or]
  have := legalImportResult_legal t
  simp only [Bool.or_eq_false_iff] at this ⊢
  exact this

theorem makeLegalImportType_legal (im : Func) (t : FunctionType) :
    isIllegalT (makeLegalImportType im t) = false := by
  unfold isIllegalT isIllegalSig makeLegalImportType
  simp only [legalizeImportParams_any, List.any_nil, Bool.false_or]
  have := legalImportResult_legal t
  simp only [Bool.or_eq_false_iff] at this ⊢
  exact this

theorem find?_map_fixFunc (l : List Func) (map : List (String × String)) (n : String) :
    (l.map (fixFunc map)).find? (fun g => g.name == n) =
      (l.find? (fun g => g.name == n)).map (fixFunc map) := by
  have hp : ((fun g : Func => g.name == n) ∘ fixFunc map) = (fun g : Func => g.name == n) := by
    funext g
    show ((fixFunc map g).name == n) = (g.name == n)
    rw [(fixFunc_fields map g).1]
  rw [List.find?_map, hp]

theorem exportAfter_kind (m : Module) (ex : Export) :
    (exportAfter m ex).kind = ex.kind := by
  unfold exportAfter
  split
  · split
    · split <;> rfl
    · rfl
  · rfl

theorem exportAfter_name (m : Module) (ex : Export) :
    (exportAfter m ex).name = ex.name := by
  unfold exportAfter
  split
  · split
    · split <;> rfl
    · rfl
  · rfl

/-- The central characterization of a successful run, relative to the
module state after channel resolution. -/
theorem run_core (m m₀ : Module) (info : TempRet0Info)
    (hens : ensureTempRet0Helpers m = (Except.ok info, m₀))
    (hfree₀ : ∀ f ∈ m₀.functions, hasLegalPref f.name = false)
    (htypes₀ : m₀.functionTypes = m.functionTypes)
    (hres₀ : ∀ f ∈ m₀.functions, f.imported = true →
      ∃ t, m₀.getFunctionTypeOrNull f.type = some t ∧
        t.params = f.params ∧ t.result = f.result)
    (hexp₀ : ∀ e ∈ m₀.exports, e.kind = ExternalKind.Function →
      (m₀.getFunctionOrNull e.value).isSome)
    (hnd₀ : (m₀.functions.map Func.name).Nodup)
    (hTfree : ∀ t ∈ m.functionTypes, hasLegalPref t.name = false)
    (m₁ : Module) (hrun : run m = Except.ok m₁) :
    (∀ ex ∈ m₁.exports, ex.kind = ExternalKind.Function →
      ∃ f, m₁.getFunctionOrNull ex.value = some f ∧ isIllegalF f = false) ∧
    (∀ f ∈ m₁.functions, f.imported = true → isIllegalF f = false ∧
      ∀ t, m₁.getFunctionTypeOrNull f.type = some t → isIllegalT t = false) ∧
    m₁.table.segments = m₀.table.segments.map (List.map (renameFn
      ((m₀.functions.filter (reclassified m₀)).map
        (fun f => (f.name, "legalfunc$" ++ f.name))))) ∧
    (∀ md bs g, m₀.getImportedFunction md bs = some g →
      (m₁.getImportedFunction md bs).isSome) ∧
    (∀ md bs, m₀.getImportedFunction md bs = Option.none →
      m₁.getImportedFunction md bs = Option.none) ∧
    m₁.exports = m₀.exports.map (exportAfter m₀) := by
  unfold run at hrun
  rw [hens] at hrun
  dsimp only at hrun
  obtain ⟨stubs2, hstubs, hnd2, hsexist, hloop⟩ :=
    runExportLoop_spec info m₀.exports m₀ [] hfree₀
      (fun s hs => absurd hs (List.not_mem_nil s)) hexp₀ (by simpa using hnd₀)
  simp only [List.nil_append] at hstubs hnd2 hsexist hloop
  have e0 : ({ m₀ with functions := m₀.functions ++ ([] : List Func) } : Module) = m₀ := by
    simp
  rw [e0] at hloop
  rw [hloop] at hrun
  dsimp only at hrun
  -- facts about the created export stubs
  have hstubProp : ∀ s ∈ stubs2, s.module_ = "" ∧ isIllegalF s = false ∧
      ∃ g, m₀.getFunctionOrNull g.name = some g ∧ isIllegalF g = true ∧
        s = makeLegalStubFunc info g := by
    intro s hs
    obtain ⟨g, hg, hgill, hsg⟩ := hstubs s hs
    exact ⟨by rw [hsg]; exact makeLegalStubFunc_module info g,
      by rw [hsg]; exact makeLegalStubFunc_legal info g, g, hg, hgill, hsg⟩
  have hstubNimp : ∀ s ∈ stubs2, s.imported = false := by
    intro s hs
    simp [Func.imported, (hstubProp s hs).1]
  -- the module entering the import loop
  set M2 : Module :=
    { functions := m₀.functions ++ stubs2, functionTypes := m₀.functionTypes,
      exports := List.map (exportAfter m₀) m₀.exports, globals := m₀.globals,
      table := m₀.table } with hM2
  have hM2T : ∀ x, M2.getFunctionTypeOrNull x = m₀.getFunctionTypeOrNull x := fun x => rfl
  have hM2F : ∀ x, M2.getFunctionOrNull x =
      ((m₀.getFunctionOrNull x).or (stubs2.find? (fun f => f.name == x))) := by
    intro x
    show (m₀.functions ++ stubs2).find? (fun f => f.name == x) = _
    exact List.find?_append
  have hres₂ : ∀ f ∈ M2.functions, f.imported = true →
      (M2.getFunctionTypeOrNull f.type).isSome := by
    intro f hf him
    rcases List.mem_append.mp (show f ∈ m₀.functions ++ stubs2 from hf) with h0 | hsb
    · obtain ⟨t, ht, _, _⟩ := hres₀ f h0 him
      rw [hM2T, ht]; rfl
    · rw [hstubNimp f hsb] at him; exact absurd him (by simp)
  have hfs₂ : ∀ f ∈ M2.functions, f.imported = true → hasLegalPref f.name = false := by
    intro f hf him
    rcases List.mem_append.mp (show f ∈ m₀.functions ++ stubs2 from hf) with h0 | hsb
    · exact hfree₀ f h0
    · rw [hstubNimp f hsb] at him; exact absurd him (by simp)
  have hfilterStubs : stubs2.filter (fun f => f.imported) = [] := by
    rw [List.filter_eq_nil_iff]
    intro s hs
    simp [hstubNimp s hs]
  have hnodupImp₂ : ((M2.functions.filter (fun f => f.imported)).map Func.name).Nodup := by
    show (((m₀.functions ++ stubs2).filter (fun f => f.imported)).map Func.name).Nodup
    rw [List.filter_append, hfilterStubs, List.append_nil]
    exact List.Sublist.nodup (List.Sublist.map Func.name (List.filter_sublist _)) hnd₀
  have habsF₂ : ∀ f ∈ M2.functions, f.imported = true →
      M2.getFunctionOrNull ("legalfunc$" ++ f.name) = Option.none ∧
      M2.getFunctionOrNull ("legalimport$" ++ f.name) = Option.none := by
    intro f _ _
    constructor
    · rw [hM2F, lookup_prefix_none m₀ hfree₀ _ (hasLegalPref_legalfunc f.name)]
      have hnone : stubs2.find? (fun g => g.name == "legalfunc$" ++ f.name) =
          Option.none := by
        rw [List.find?_eq_none]
        intro s hs
        obtain ⟨_, _, g, _, _, hsg⟩ := hstubProp s hs
        rw [hsg, makeLegalStubFunc_name]
        simp only [beq_iff_eq]
        exact legalstub_ne_legalfunc g.name f.name
      rw [hnone]
      rfl
    · rw [hM2F, lookup_prefix_none m₀ hfree₀ _ (hasLegalPref_legalimport f.name)]
      have hnone : stubs2.find? (fun g => g.name == "legalimport$" ++ f.name) =
          Option.none := by
        rw [List.find?_eq_none]
        intro s hs
        obtain ⟨_, _, g, _, _, hsg⟩ := hstubProp s hs
        rw [hsg, makeLegalStubFunc_name]
        simp only [beq_iff_eq]
        exact legalstub_ne_legalimport g.name f.name
      rw [hnone]
      rfl
  have hTfree₀all : ∀ t ∈ m₀.functionTypes, hasLegalPref t.name = false := by
    rw [htypes₀]; exact hTfree
  have habsT₂ : ∀ f ∈ M2.functions, f.imported = true →
      M2.getFunctionTypeOrNull ("legaltype$" ++ f.name) = Option.none := by
    intro f _ _
    rw [hM2T]
    exact lookupT_prefix_none m₀ hTfree₀all _ (hasLegalPref_legaltype f.name)
  have himploop := runImportLoop_spec info M2.functions M2 []
    hres₂ hfs₂ hnodupImp₂ habsF₂ habsT₂
  have hMfun : M2.functions = m₀.functions ++ stubs2 := rfl
  rw [hMfun] at himploop
  rw [himploop] at hrun
  -- simplify the reclassification context from M2 to m₀
  have hreclM2 : reclassified M2 = reclassified m₀ := by
    funext f
    unfold reclassified
    rw [hM2T]
  have hrecdM2 : recordOrDefault M2 = recordOrDefault m₀ := by
    funext f
    unfold recordOrDefault
    rw [hM2T]
  have hfilterRecl : stubs2.filter (reclassified m₀) = [] := by
    rw [List.filter_eq_nil_iff]
    intro s hs
    unfold reclassified
    rw [hstubNimp s hs]
    simp
  rw [hreclM2, hrecdM2, List.filter_append, hfilterRecl, List.append_nil] at hrun
  simp only [List.nil_append] at hrun
  set ills := m₀.functions.filter (reclassified m₀) with hillsdef
  set pairs := ills.map (fun f => (f.name, "legalfunc$" ++ f.name)) with hpairsdef
  set addedF := ills.flatMap (fun f =>
    [makeLegalFuncStub info f (recordOrDefault m₀ f),
     makeLegalImportFunc f (recordOrDefault m₀ f)]) with haddedF
  set addedT := ills.map (fun f => makeLegalImportType f (recordOrDefault m₀ f)) with haddedT
  -- facts shared by both branches
  have hillsImp : ∀ f ∈ ills, f.imported = true := by
    intro f hf
    exact reclassified_imported (List.of_mem_filter hf)
  have hillsMem : ∀ f ∈ ills, f ∈ m₀.functions := fun f hf => List.mem_of_mem_filter hf
  have hkeysFree : ∀ q ∈ pairs, hasLegalPref q.1 = false := by
    intro q hq
    obtain ⟨f, hf, hfq⟩ := List.mem_map.mp hq
    rw [← hfq]
    exact hfree₀ f (hillsMem f hf)
  have hexpTarget : ∀ ex ∈ m₀.exports, ex.kind = ExternalKind.Function →
      ∃ f, M2.getFunctionOrNull (exportAfter m₀ ex).value = some f ∧
        isIllegalF f = false ∧ reclassified m₀ f = false := by
    intro ex hx hk
    have hsome := hexp₀ ex hx hk
    rcases hf : m₀.getFunctionOrNull ex.value with _ | f
    · rw [hf] at hsome; simp at hsome
    have hfn : f.name = ex.value := getFunctionOrNull_name hf
    have hfl : m₀.getFunctionOrNull f.name = some f := by rw [hfn]; exact hf
    by_cases hill : isIllegalF f = true
    · have hexa : exportAfter m₀ ex = { ex with value := "legalstub$" ++ f.name } := by
        unfold exportAfter
        rw [if_pos (by simpa using hk), hf]
        simp [hill]
      obtain ⟨s, hsmem, hseq⟩ := hsexist ex hx hk f hf hill
      refine ⟨makeLegalStubFunc info f, ?_, makeLegalStubFunc_legal info f, ?_⟩
      · rw [hexa]
        show M2.getFunctionOrNull ("legalstub$" ++ f.name) = _
        rw [hM2F, lookup_prefix_none m₀ hfree₀ _ (hasLegalPref_legalstub f.name)]
        have hfind : stubs2.find? (fun g => g.name == "legalstub$" ++ f.name) =
            some (makeLegalStubFunc info f) := by
          apply find?_unique_mem (hseq ▸ hsmem)
          · simp [makeLegalStubFunc_name]
          · intro y hy hpy
            obtain ⟨_, _, g, hg, _, hyg⟩ := hstubProp y hy
            have hyname : y.name = "legalstub$" ++ f.name := by simpa using hpy
            rw [hyg, makeLegalStubFunc_name] at hyname
            have hgf : g.name = f.name := append_left_cancel_string hyname
            rw [hgf, hfl] at hg
            cases hg
            exact hyg
        rw [hfind]
        rfl
      · unfold reclassified
        have : (makeLegalStubFunc info f).imported = false := by
          simp [Func.imported, makeLegalStubFunc_module]
        rw [this]
        rfl
    · have hexa : exportAfter m₀ ex = ex := by
        unfold exportAfter
        rw [if_pos (by simpa using hk), hf]
        simp [hill]
      refine ⟨f, ?_, by simpa using hill, ?_⟩
      · rw [hexa, hM2F, hf]
        rfl
      · unfold reclassified
        by_cases him : f.imported = true
        · obtain ⟨t, ht, hp, hr⟩ := hres₀ f (List.mem_of_find?_eq_some hf) him
          rw [ht]
          have : isIllegalT t = false := by
            unfold isIllegalT isIllegalSig
            rw [hp, hr]
            simpa [isIllegalF, isIllegalSig] using hill
          simp [this]
        · have : f.imported = false := by simpa using him
          rw [this]
          rfl
  have hM2Imp : ∀ md bs, M2.getImportedFunction md bs = m₀.getImportedFunction md bs := by
    intro md bs
    show (m₀.functions ++ stubs2).find?
      (fun f => f.imported && f.module_ == md && f.base == bs) = _
    rw [List.find?_append]
    have hnone : stubs2.find?
        (fun f => f.imported && f.module_ == md && f.base == bs) = Option.none := by
      rw [List.find?_eq_none]
      intro s hs
      simp [hstubNimp s hs]
    rw [hnone]
    exact Option.or_none
  by_cases hpe : pairs = []
  · -- no import was reclassified
    have hills0 : ills = [] := by
      have hpe2 := hpe
      rw [hpairsdef] at hpe2
      exact List.map_eq_nil_iff.mp hpe2
    have hreclNone : ∀ f ∈ m₀.functions, ¬ reclassified m₀ f = true := by
      have h2 := hills0
      rw [hillsdef] at h2
      exact List.filter_eq_nil_iff.mp h2
    have haddedF0 : addedF = [] := by
      rw [haddedF, hills0]
      rfl
    have haddedT0 : addedT = [] := by
      rw [haddedT, hills0]
      rfl
    rw [hpe, haddedF0, haddedT0] at hrun
    simp only [List.flatMap_nil, List.map_nil, List.append_nil, List.length_nil,
      map_renameFn_nil] at hrun
    have hm₁ : m₁ = M2 := by
      have h0 : ¬ ((0 : Nat) > 0) := by simp
      rw [if_neg h0] at hrun
      injection hrun with h
      rw [← h]
    subst hm₁
    refine ⟨?_, ?_, ?_, ?_, ?_, rfl⟩
    · intro ex1 hx1 hk1
      obtain ⟨ex, hx, hxeq⟩ := List.mem_map.mp hx1
      rw [← hxeq] at hk1 ⊢
      rw [exportAfter_kind] at hk1
      obtain ⟨f, hlook, hleg, _⟩ := hexpTarget ex hx hk1
      exact ⟨f, hlook, hleg⟩
    · intro f hf him
      rcases List.mem_append.mp (show f ∈ m₀.functions ++ stubs2 from hf) with h0 | hsb
      · obtain ⟨t, ht, hp, hr⟩ := hres₀ f h0 him
        have hrecl := hreclNone f h0
        unfold reclassified at hrecl
        rw [him, ht] at hrecl
        simp only [Bool.true_and] at hrecl
        have htleg : isIllegalT t = false := by simpa using hrecl
        have hfleg : isIllegalF f = false := by
          unfold isIllegalF isIllegalSig
          unfold isIllegalT isIllegalSig at htleg
          rw [hp, hr] at htleg
          exact htleg
        refine ⟨hfleg, ?_⟩
        intro u hu
        rw [hM2T, ht] at hu
        cases hu
        exact htleg
      · rw [hstubNimp f hsb] at him; exact absurd him (by simp)
    · show M2.table.segments = m₀.table.segments.map (List.map (renameFn pairs))
      rw [hpe, map_renameFn_nil]
    · intro md bs g hg
      rw [hM2Imp, hg]
      rfl
    · intro md bs hg
      rw [hM2Imp]
      exact hg
  · -- at least one import was reclassified
    have hlen : 0 < pairs.length := List.length_pos.mpr hpe
    rw [if_pos hlen] at hrun
    injection hrun with h
    rw [foldl_removeFunction pairs] at h
    unfold fixImports at h
    dsimp only at h
    set keep : Func → Bool := fun f => pairs.all (fun p => f.name != p.1) with hkeepdef
    have hm₁ : m₁ =
        { functions := ((M2.functions ++ addedF).filter keep).map (fixFunc pairs),
          functionTypes := M2.functionTypes ++ addedT,
          exports := M2.exports, globals := M2.globals,
          table := { segments := M2.table.segments.map (List.map (renameFn pairs)) } } := by
      rw [← h]
    subst hm₁
    have hkeepA : ∀ f : Func, hasLegalPref f.name = true → keep f = true := by
      intro f hf
      rw [hkeepdef]
      rw [List.all_eq_true]
      intro q hq
      have hq1 := hkeysFree q hq
      simp only [bne_iff_ne, ne_eq]
      exact fun he => (ne_of_hasLegalPref hq1 hf) he.symm
    have hkeepB : ∀ f ∈ m₀.functions, reclassified m₀ f = false → keep f = true := by
      intro f hfm hrecl
      rw [hkeepdef]
      rw [List.all_eq_true]
      intro q hq
      obtain ⟨g, hg, hgq⟩ := List.mem_map.mp hq
      simp only [bne_iff_ne, ne_eq]
      intro he
      have hgname : g.name = f.name := by rw [← hgq] at he; exact he.symm
      have hgfind := find?_name_of_nodup hnd₀ (hillsMem g hg)
      rw [hgname] at hgfind
      have hffind := find?_name_of_nodup hnd₀ hfm
      rw [hgfind] at hffind
      cases hffind
      have := List.of_mem_filter hg
      rw [hrecl] at this
      exact absurd this (by simp)
    have hm₁F : ∀ x, (((M2.functions ++ addedF).filter keep).map (fixFunc pairs)).find?
        (fun g => g.name == x) =
        (((M2.functions ++ addedF).filter keep).find?
          (fun g => g.name == x)).map (fixFunc pairs) := by
      intro x
      exact find?_map_fixFunc _ pairs x
    refine ⟨?_, ?_, rfl, ?_, ?_, rfl⟩
    · -- exports target legal functions
      intro ex1 hx1 hk1
      obtain ⟨ex, hx, hxeq⟩ := List.mem_map.mp hx1
      rw [← hxeq] at hk1 ⊢
      rw [exportAfter_kind] at hk1
      obtain ⟨f, hlook, hleg, hrecl⟩ := hexpTarget ex hx hk1
      have hfmem : f ∈ M2.functions := List.mem_of_find?_eq_some hlook
      have hkeepf : keep f = true := by
        rcases List.mem_append.mp (show f ∈ m₀.functions ++ stubs2 from hfmem) with h0 | hsb
        · exact hkeepB f h0 hrecl
        · obtain ⟨_, _, g, _, _, hsg⟩ := hstubProp f hsb
          apply hkeepA
          rw [hsg, makeLegalStubFunc_name]
          exact hasLegalPref_legalstub g.name
      refine ⟨fixFunc pairs f, ?_, by rw [fixFunc_illegal]; exact hleg⟩
      show (((M2.functions ++ addedF).filter keep).map (fixFunc pairs)).find?
        (fun g => g.name == (exportAfter m₀ ex).value) = some (fixFunc pairs f)
      rw [hm₁F]
      have h1 : (M2.functions ++ addedF).find?
          (fun g => g.name == (exportAfter m₀ ex).value) = some f :=
        find?_append_some hlook
      rw [find?_filter_keep h1 hkeepf]
      rfl
    · -- imports are legal
      intro g1 hg1 him1
      obtain ⟨g, hgmem, hgeq⟩ := List.mem_map.mp hg1
      rw [← hgeq] at him1 ⊢
      rw [fixFunc_imported] at him1
      have hgkeep := List.of_mem_filter hgmem
      have hgin := List.mem_of_mem_filter hgmem
      rw [fixFunc_illegal]
      have htype : (fixFunc pairs g).type = g.type := (fixFunc_fields pairs g).2.2.2.2.2
      rcases List.mem_append.mp hgin with hM2m | haddm
      · rcases List.mem_append.mp (show g ∈ m₀.functions ++ stubs2 from hM2m) with h0 | hsb
        · have hrecl : reclassified m₀ g = false := by
            cases hb : reclassified m₀ g
            · rfl
            · exfalso
              have hgILL : g ∈ ills := by
                rw [hillsdef]
                exact List.mem_filter.mpr ⟨h0, hb⟩
              have hq : (g.name, "legalfunc$" ++ g.name) ∈ pairs := by
                rw [hpairsdef]
                exact List.mem_map_of_mem _ hgILL
              rw [hkeepdef] at hgkeep
              rw [List.all_eq_true] at hgkeep
              have := hgkeep _ hq
              simp at this
          obtain ⟨t, ht, hp, hr⟩ := hres₀ g h0 him1
          unfold reclassified at hrecl
          rw [him1, ht] at hrecl
          simp only [Bool.true_and] at hrecl
          have hfleg : isIllegalF g = false := by
            unfold isIllegalF isIllegalSig
            unfold isIllegalT isIllegalSig at hrecl
            rw [hp, hr] at hrecl
            exact hrecl
          refine ⟨hfleg, ?_⟩
          intro u hu
          rw [htype] at hu
          have hu2 : (m₀.functionTypes ++ addedT).find? (fun q => q.name == g.type) =
              some u := hu
          rw [find?_append_some ht] at hu2
          cases hu2
          exact hrecl
        · rw [hstubNimp g hsb] at him1; exact absurd him1 (by simp)
      · rw [haddedF] at haddm
        obtain ⟨ill, hillm, hgin2⟩ := List.mem_flatMap.mp haddm
        rcases List.mem_cons.mp hgin2 with hgfs | hgl
        · exfalso
          rw [hgfs] at him1
          have : (makeLegalFuncStub info ill (recordOrDefault m₀ ill)).imported = false := by
            simp [Func.imported]
            rfl
          rw [this] at him1
          exact absurd him1 (by simp)
        · have hglif : g = makeLegalImportFunc ill (recordOrDefault m₀ ill) := by
            simpa using hgl
          refine ⟨by rw [hglif]; exact makeLegalImportFunc_legal _ _, ?_⟩
          intro u hu
          rw [htype] at hu
          have hu2 : (m₀.functionTypes ++ addedT).find? (fun q => q.name == g.type) =
              some u := hu
          have hglname : g.type = "legaltype$" ++ ill.name := by rw [hglif]; rfl
          rw [hglname] at hu2
          rw [find?_append_none (lookupT_prefix_none m₀ hTfree₀all _
            (hasLegalPref_legaltype ill.name))] at hu2
          have humem := List.mem_of_find?_eq_some hu2
          rw [haddedT] at humem
          obtain ⟨ill2, _, hu3⟩ := List.mem_map.mp humem
          rw [← hu3]
          exact makeLegalImportType_legal _ _
    · -- imports present before are still present
      intro md bs g hg
      have hgmem := List.mem_of_find?_eq_some hg
      have hgpred := List.find?_some hg
      have hgimp : g.imported = true := by
        simp only [Bool.and_eq_true] at hgpred
        exact hgpred.1.1
      rw [Option.isSome_iff_exists]
      by_cases hrecl : reclassified m₀ g = true
      · have hgILL : g ∈ ills := by
          rw [hillsdef]
          exact List.mem_filter.mpr ⟨hgmem, hrecl⟩
        set glif := makeLegalImportFunc g (recordOrDefault m₀ g) with hglif
        have hmem1 : glif ∈ addedF := by
          rw [haddedF]
          apply List.mem_flatMap.mpr
          exact ⟨g, hgILL, by rw [hglif]; simp⟩
        have hkeepg : keep glif = true := by
          apply hkeepA
          rw [hglif]
          show hasLegalPref ("legalimport$" ++ g.name) = true
          exact hasLegalPref_legalimport g.name
        have hmem2 : glif ∈ (M2.functions ++ addedF).filter keep :=
          List.mem_filter.mpr ⟨List.mem_append.mpr (Or.inr hmem1), hkeepg⟩
        have hmem3 : fixFunc pairs glif ∈
            ((M2.functions ++ addedF).filter keep).map (fixFunc pairs) :=
          List.mem_map_of_mem _ hmem2
        have hpred : ((fixFunc pairs glif).imported &&
            (fixFunc pairs glif).module_ == md && (fixFunc pairs glif).base == bs) = true := by
          rw [fixFunc_imported, (fixFunc_fields pairs glif).2.2.2.1,
            (fixFunc_fields pairs glif).2.2.2.2.1]
          have h1 : glif.module_ = g.module_ := by rw [hglif]; rfl
          have h2 : glif.base = g.base := by rw [hglif]; rfl
          have h3 : glif.imported = g.imported := by
            unfold Func.imported
            rw [h1]
          rw [h1, h2, h3]
          simp only [Bool.and_eq_true] at hgpred ⊢
          exact hgpred
        have hfin : ((((M2.functions ++ addedF).filter keep).map (fixFunc pairs)).find?
            (fun f => f.imported && f.module_ == md && f.base == bs)).isSome :=
          List.find?_isSome.mpr ⟨fixFunc pairs glif, hmem3, hpred⟩
        rw [Option.isSome_iff_exists] at hfin
        obtain ⟨w, hw⟩ := hfin
        exact ⟨w, hw⟩
      · have hrecl2 : reclassified m₀ g = false := by
          cases hb : reclassified m₀ g
          · rfl
          · exact absurd hb hrecl
        have hkeepg := hkeepB g hgmem hrecl2
        have hmem2 : g ∈ (M2.functions ++ addedF).filter keep := by
          apply List.mem_filter.mpr
          refine ⟨List.mem_append.mpr (Or.inl ?_), hkeepg⟩
          show g ∈ m₀.functions ++ stubs2
          exact List.mem_append.mpr (Or.inl hgmem)
        have hmem3 : fixFunc pairs g ∈
            ((M2.functions ++ addedF).filter keep).map (fixFunc pairs) :=
          List.mem_map_of_mem _ hmem2
        have hpred : ((fixFunc pairs g).imported &&
            (fixFunc pairs g).module_ == md && (fixFunc pairs g).base == bs) = true := by
          rw [fixFunc_imported, (fixFunc_fields pairs g).2.2.2.1,
            (fixFunc_fields pairs g).2.2.2.2.1]
          exact hgpred
        have hfin : ((((M2.functions ++ addedF).filter keep).map (fixFunc pairs)).find?
            (fun f => f.imported && f.module_ == md && f.base == bs)).isSome :=
          List.find?_isSome.mpr ⟨fixFunc pairs g, hmem3, hpred⟩
        rw [Option.isSome_iff_exists] at hfin
        obtain ⟨w, hw⟩ := hfin
        exact ⟨w, hw⟩
    · -- imports absent before remain absent
      intro md bs hg
      have hnone := List.find?_eq_none.mp hg
      show (((M2.functions ++ addedF).filter keep).map (fixFunc pairs)).find?
        (fun f => f.imported && f.module_ == md && f.base == bs) = Option.none
      rw [List.find?_eq_none]
      intro x hx
      obtain ⟨z, hzmem, hzeq⟩ := List.mem_map.mp hx
      rw [← hzeq]
      have hzin := List.mem_of_mem_filter hzmem
      have hpredz : ∀ w : Func, (w.imported && w.module_ == md && w.base == bs) =
          ((fixFunc pairs w).imported && (fixFunc pairs w).module_ == md &&
            (fixFunc pairs w).base == bs) := by
        intro w
        rw [fixFunc_imported, (fixFunc_fields pairs w).2.2.2.1,
          (fixFunc_fields pairs w).2.2.2.2.1]
      rw [← hpredz]
      rcases List.mem_append.mp hzin with hM2m | haddm
      · rcases List.mem_append.mp (show z ∈ m₀.functions ++ stubs2 from hM2m) with h0 | hsb
        · exact hnone z h0
        · simp [hstubNimp z hsb]
      · rw [haddedF] at haddm
        obtain ⟨ill, hillm, hzin2⟩ := List.mem_flatMap.mp haddm
        rcases List.mem_cons.mp hzin2 with hzfs | hzl
        · rw [hzfs]
          intro hc
          simp only [Bool.and_eq_true] at hc
          have : (makeLegalFuncStub info ill (recordOrDefault m₀ ill)).imported = false := by
            simp [Func.imported]
            rfl
          rw [this] at hc
          exact absurd hc.1.1 (by simp)
        · have hzlif : z = makeLegalImportFunc ill (recordOrDefault m₀ ill) := by
            simpa using hzl
          rw [hzlif]
          intro hc
          have hillmem := hillsMem ill hillm
          have hillimp := hillsImp ill hillm
          apply hnone ill hillmem
          simp only [Bool.and_eq_true] at hc ⊢
          have h1 : (makeLegalImportFunc ill (recordOrDefault m₀ ill)).module_ =
              ill.module_ := rfl
          have h2 : (makeLegalImportFunc ill (recordOrDefault m₀ ill)).base = ill.base := rfl
          rw [h1] at hc
          rw [h2] at hc
          exact ⟨⟨hillimp, hc.1.2⟩, hc.2⟩

theorem find?_map_exportAfter (l : List Export) (mm : Module) (nm : String) :
    (l.map (exportAfter mm)).find? (fun e => e.name == nm) =
      (l.find? (fun e => e.name == nm)).map (exportAfter mm) := by
  have hp : ((fun e : Export => e.name == nm) ∘ exportAfter mm) =
      (fun e : Export => e.name == nm) := by
    funext e
    show ((exportAfter mm e).name == nm) = (e.name == nm)
    rw [exportAfter_name]
  rw [List.find?_map, hp]

/-- The master characterization: on a well-formed module with free
channel names, a successful run yields a legalized fixed point whose
table was renamed exactly on the reclassified import names. -/
theorem run_master (m : Module) (hwf : wfModule m) (hch : channelNamesFree m)
    (m₁ : Module) (hrun : run m = Except.ok m₁) :
    LegalizedState m₁ ∧
    m₁.table.segments = m.table.segments.map (List.map (renameFn
      ((m.functions.filter (reclassified m)).map
        (fun f => (f.name, "legalfunc$" ++ f.name))))) := by
  obtain ⟨hnd, hndT, hcons, hexp, hfreeF, hfreeT⟩ := hwf
  rcases hig : m.getImportedFunction ENV GET_TEMP_RET_0 with _ | ig <;>
    rcases his : m.getImportedFunction ENV SET_TEMP_RET_0 with _ | isf
  case none.some =>
    have hens : ensureTempRet0Helpers m =
        (Except.error "LegalizeJSInterface cannot handle partial tempRet0 imports", m) := by
      unfold ensureTempRet0Helpers
      rw [hig, his]
    unfold run at hrun
    rw [hens] at hrun
    exact absurd hrun (by simp)
  case some.none =>
    have hens : ensureTempRet0Helpers m =
        (Except.error "LegalizeJSInterface cannot handle partial tempRet0 imports", m) := by
      unfold ensureTempRet0Helpers
      rw [hig, his]
    unfold run at hrun
    rw [hens] at hrun
    exact absurd hrun (by simp)
  case some.some =>
    -- both channel functions are imported: the module is untouched
    have hens : ensureTempRet0Helpers m =
        (Except.ok ⟨ig.name, isf.name, false⟩, m) := by
      unfold ensureTempRet0Helpers
      rw [hig, his]
    obtain ⟨hexp₁, himp₁, htab₁, hpres, hnone, hexpmap⟩ :=
      run_core m m _ hens hfreeF rfl hcons hexp hnd hfreeT m₁ hrun
    refine ⟨⟨?_, ?_, hexp₁, himp₁⟩, htab₁⟩
    · have h1 := hpres ENV GET_TEMP_RET_0 ig hig
      have h2 := hpres ENV SET_TEMP_RET_0 isf his
      rcases hig2 : m₁.getImportedFunction ENV GET_TEMP_RET_0 with _ | ig2
      · rw [hig2] at h1; simp at h1
      rcases his2 : m₁.getImportedFunction ENV SET_TEMP_RET_0 with _ | is2
      · rw [his2] at h2; simp at h2
      have : ensureTempRet0Helpers m₁ =
          (Except.ok ⟨ig2.name, is2.name, false⟩, m₁) := by
        unfold ensureTempRet0Helpers
        rw [hig2, his2]
      rw [this]
    · have h1 := hpres ENV GET_TEMP_RET_0 ig hig
      have h2 := hpres ENV SET_TEMP_RET_0 isf his
      rcases hig2 : m₁.getImportedFunction ENV GET_TEMP_RET_0 with _ | ig2
      · rw [hig2] at h1; simp at h1
      rcases his2 : m₁.getImportedFunction ENV SET_TEMP_RET_0 with _ | is2
      · rw [his2] at h2; simp at h2
      refine ⟨⟨ig2.name, is2.name, false⟩, ?_⟩
      have : ensureTempRet0Helpers m₁ =
          (Except.ok ⟨ig2.name, is2.name, false⟩, m₁) := by
        unfold ensureTempRet0Helpers
        rw [hig2, his2]
      rw [this]
  case none.none =>
    rcases heg : m.getExportOrNull GET_TEMP_RET_0 with _ | eg <;>
      rcases hes : m.getExportOrNull SET_TEMP_RET_0 with _ | es
    case none.some =>
      have hens : ensureTempRet0Helpers m =
          (Except.error "LegalizeJSInterface cannot handle partial tempRet0 imports", m) := by
        unfold ensureTempRet0Helpers
        rw [hig, his, heg, hes]
      unfold run at hrun
      rw [hens] at hrun
      exact absurd hrun (by simp)
    case some.none =>
      have hens : ensureTempRet0Helpers m =
          (Except.error "LegalizeJSInterface cannot handle partial tempRet0 imports", m) := by
        unfold ensureTempRet0Helpers
        rw [hig, his, heg, hes]
      unfold run at hrun
      rw [hens] at hrun
      exact absurd hrun (by simp)
    case some.some =>
      -- both channel functions are exported: the module is untouched
      have hens : ensureTempRet0Helpers m =
          (Except.ok ⟨eg.value, es.value, (m.getGlobalOrNull TEMP_RET_0).isSome⟩, m) := by
        unfold ensureTempRet0Helpers
        rw [hig, his, heg, hes]
      obtain ⟨hexp₁, himp₁, htab₁, hpres, hnone, hexpmap⟩ :=
        run_core m m _ hens hfreeF rfl hcons hexp hnd hfreeT m₁ hrun
      have hig1 := hnone ENV GET_TEMP_RET_0 hig
      have his1 := hnone ENV SET_TEMP_RET_0 his
      have hexfind : ∀ nm, m₁.getExportOrNull nm =
          (m.getExportOrNull nm).map (exportAfter m) := by
        intro nm
        show m₁.exports.find? (fun e => e.name == nm) = _
        rw [hexpmap]
        exact find?_map_exportAfter m.exports m nm
      have heg1 : m₁.getExportOrNull GET_TEMP_RET_0 = some (exportAfter m eg) := by
        rw [hexfind, heg]
        rfl
      have hes1 : m₁.getExportOrNull SET_TEMP_RET_0 = some (exportAfter m es) := by
        rw [hexfind, hes]
        rfl
      have hens1 : ensureTempRet0Helpers m₁ =
          (Except.ok ⟨(exportAfter m eg).value, (exportAfter m es).value,
            (m₁.getGlobalOrNull TEMP_RET_0).isSome⟩, m₁) := by
        unfold ensureTempRet0Helpers
        rw [hig1, his1, heg1, hes1]
      refine ⟨⟨by rw [hens1], ⟨_, by rw [hens1]⟩, hexp₁, himp₁⟩, htab₁⟩
    case none.none =>
      -- neither imported nor exported: the helpers are created
      obtain ⟨hchG, hchS⟩ := hch hig his heg hes
      have hens : ensureTempRet0Helpers m =
          (Except.ok ⟨GET_TEMP_RET_0, SET_TEMP_RET_0, true⟩,
           ((((if (m.getGlobalOrNull TEMP_RET_0).isNone then m.addGlobal tempRet0Global
              else m).addFunction getTempRet0Func).addExport
                (exportOfName GET_TEMP_RET_0)).addFunction
                  setTempRet0Func).addExport (exportOfName SET_TEMP_RET_0)) := by
        unfold ensureTempRet0Helpers
        rw [hig, his, heg, hes]
      set mg : Module := if (m.getGlobalOrNull TEMP_RET_0).isNone
        then m.addGlobal tempRet0Global else m with hmg
      have hmgFun : mg.functions = m.functions := by
        rw [hmg]
        by_cases hgl : (m.getGlobalOrNull TEMP_RET_0).isNone
        · rw [if_pos hgl]; rfl
        · rw [if_neg hgl]
      have hmgTy : mg.functionTypes = m.functionTypes := by
        rw [hmg]
        by_cases hgl : (m.getGlobalOrNull TEMP_RET_0).isNone
        · rw [if_pos hgl]; rfl
        · rw [if_neg hgl]
      have hmgEx : mg.exports = m.exports := by
        rw [hmg]
        by_cases hgl : (m.getGlobalOrNull TEMP_RET_0).isNone
        · rw [if_pos hgl]; rfl
        · rw [if_neg hgl]
      have hmgTab : mg.table = m.table := by
        rw [hmg]
        by_cases hgl : (m.getGlobalOrNull TEMP_RET_0).isNone
        · rw [if_pos hgl]; rfl
        · rw [if_neg hgl]
      set M0 : Module := (((mg.addFunction getTempRet0Func).addExport
        (exportOfName GET_TEMP_RET_0)).addFunction setTempRet0Func).addExport
          (exportOfName SET_TEMP_RET_0) with hM0
      have hM0Fun : M0.functions = m.functions ++ [getTempRet0Func, setTempRet0Func] := by
        rw [hM0]
        show (mg.functions ++ [getTempRet0Func]) ++ [setTempRet0Func] = _
        rw [hmgFun, List.append_assoc]
        rfl
      have hM0Ty : M0.functionTypes = m.functionTypes := by
        rw [hM0]
        show mg.functionTypes = m.functionTypes
        exact hmgTy
      have hM0Ex : M0.exports = m.exports ++
          [exportOfName GET_TEMP_RET_0, exportOfName SET_TEMP_RET_0] := by
        rw [hM0]
        show (mg.exports ++ [exportOfName GET_TEMP_RET_0]) ++ [exportOfName SET_TEMP_RET_0] = _
        rw [hmgEx, List.append_assoc]
        rfl
      have hM0Tab : M0.table = m.table := by
        rw [hM0]
        show mg.table = m.table
        exact hmgTab
      have hM0look : ∀ x, M0.getFunctionTypeOrNull x = m.getFunctionTypeOrNull x := by
        intro x
        show M0.functionTypes.find? (fun t => t.name == x) = _
        rw [hM0Ty]
        rfl
      have hM0fun : ∀ x, M0.getFunctionOrNull x =
          (m.functions ++ [getTempRet0Func, setTempRet0Func]).find?
            (fun f => f.name == x) := by
        intro x
        show M0.functions.find? (fun f => f.name == x) = _
        rw [hM0Fun]
      have hGnotin : ∀ f ∈ m.functions, f.name ≠ GET_TEMP_RET_0 := by
        intro f hf
        have := List.find?_eq_none.mp hchG f hf
        simpa using this
      have hSnotin : ∀ f ∈ m.functions, f.name ≠ SET_TEMP_RET_0 := by
        intro f hf
        have := List.find?_eq_none.mp hchS f hf
        simpa using this
      have hfree0 : ∀ f ∈ M0.functions, hasLegalPref f.name = false := by
        intro f hf
        rw [hM0Fun] at hf
        rcases List.mem_append.mp hf with hf | hf
        · exact hfreeF f hf
        · simp only [List.mem_cons, List.mem_singleton, List.not_mem_nil, or_false] at hf
          rcases hf with hf | hf <;> rw [hf] <;> decide
      have hres0 : ∀ f ∈ M0.functions, f.imported = true →
          ∃ t, M0.getFunctionTypeOrNull f.type = some t ∧
            t.params = f.params ∧ t.result = f.result := by
        intro f hf him
        rw [hM0Fun] at hf
        rcases List.mem_append.mp hf with hf | hf
        · obtain ⟨t, ht, h1, h2⟩ := hcons f hf him
          exact ⟨t, by rw [hM0look]; exact ht, h1, h2⟩
        · simp only [List.mem_cons, List.mem_singleton, List.not_mem_nil, or_false] at hf
          rcases hf with hf | hf <;> rw [hf] at him <;> exact absurd him (by decide)
      have hexp0 : ∀ e ∈ M0.exports, e.kind = ExternalKind.Function →
          (M0.getFunctionOrNull e.value).isSome := by
        intro e he hk
        rw [hM0Ex] at he
        rcases List.mem_append.mp he with he | he
        · have hsome := hexp e he hk
          rw [Option.isSome_iff_exists] at hsome
          obtain ⟨g, hg⟩ := hsome
          rw [hM0fun]
          rw [find?_append_some hg]
          rfl
        · simp only [List.mem_cons, List.mem_singleton, List.not_mem_nil, or_false] at he
          rcases he with he | he <;> rw [he] <;> rw [hM0fun] <;>
            rw [find?_append_none (by assumption)] <;> decide
      have hnd0 : (M0.functions.map Func.name).Nodup := by
        rw [hM0Fun, List.map_append]
        rw [List.nodup_append]
        refine ⟨hnd, by decide, ?_⟩
        intro a ha hb
        obtain ⟨f, hf, hfa⟩ := List.mem_map.mp ha
        simp only [List.map_cons, List.map_nil, List.mem_cons, List.mem_singleton,
          List.not_mem_nil, or_false] at hb
        rcases hb with hb | hb
        · exact hGnotin f hf (hfa.trans hb)
        · exact hSnotin f hf (hfa.trans hb)
      obtain ⟨hexp₁, himp₁, htab₁, hpres, hnone, hexpmap⟩ :=
        run_core m M0 _ hens hfree0 hM0Ty hres0 hexp0 hnd0 hfreeT m₁ hrun
      have himpG : M0.getImportedFunction ENV GET_TEMP_RET_0 = Option.none := by
        show M0.functions.find? _ = Option.none
        rw [hM0Fun]
        rw [find?_append_none hig]
        rfl
      have himpS : M0.getImportedFunction ENV SET_TEMP_RET_0 = Option.none := by
        show M0.functions.find? _ = Option.none
        rw [hM0Fun]
        rw [find?_append_none his]
        rfl
      have hig1 := hnone ENV GET_TEMP_RET_0 himpG
      have his1 := hnone ENV SET_TEMP_RET_0 himpS
      have hexfind : ∀ nm, m₁.getExportOrNull nm =
          (M0.getExportOrNull nm).map (exportAfter M0) := by
        intro nm
        show m₁.exports.find? (fun e => e.name == nm) = _
        rw [hexpmap]
        exact find?_map_exportAfter M0.exports M0 nm
      have hexG : M0.getExportOrNull GET_TEMP_RET_0 = some (exportOfName GET_TEMP_RET_0) := by
        show M0.exports.find? _ = _
        rw [hM0Ex]
        rw [find?_append_none heg]
        rfl
      have hexS : M0.getExportOrNull SET_TEMP_RET_0 = some (exportOfName SET_TEMP_RET_0) := by
        show M0.exports.find? _ = _
        rw [hM0Ex]
        rw [find?_append_none hes]
        rfl
      have heg1 : m₁.getExportOrNull GET_TEMP_RET_0 =
          some (exportAfter M0 (exportOfName GET_TEMP_RET_0)) := by
        rw [hexfind, hexG]
        rfl
      have hes1 : m₁.getExportOrNull SET_TEMP_RET_0 =
          some (exportAfter M0 (exportOfName SET_TEMP_RET_0)) := by
        rw [hexfind, hexS]
        rfl
      have hens1 : ensureTempRet0Helpers m₁ =
          (Except.ok ⟨(exportAfter M0 (exportOfName GET_TEMP_RET_0)).value,
            (exportAfter M0 (exportOfName SET_TEMP_RET_0)).value,
            (m₁.getGlobalOrNull TEMP_RET_0).isSome⟩, m₁) := by
        unfold ensureTempRet0Helpers
        rw [hig1, his1, heg1, hes1]
      have hrc : reclassified M0 = reclassified m := by
        funext f
        unfold reclassified
        rw [hM0look]
      have hfilter : M0.functions.filter (reclassified M0) =
          m.functions.filter (reclassified m) := by
        rw [hrc, hM0Fun, List.filter_append]
        have hnil : [getTempRet0Func, setTempRet0Func].filter (reclassified m) = [] := rfl
        rw [hnil, List.append_nil]
      refine ⟨⟨by rw [hens1], ⟨_, by rw [hens1]⟩, hexp₁, himp₁⟩, ?_⟩
      rw [htab₁, hM0Tab, hfilter]

theorem renameFn_reclass (m : Module) (hnd : (m.functions.map Func.name).Nodup)
    (n : String) :
    renameFn ((m.functions.filter (reclassified m)).map
      (fun f => (f.name, "legalfunc$" ++ f.name))) n =
      (if reclassifiedName m n = true then "legalfunc$" ++ n else n) := by
  cases hr : reclassifiedName m n
  · rw [if_neg (by simp [hr])]
    unfold renameFn
    have hfind : mapFind ((m.functions.filter (reclassified m)).map
        (fun f => (f.name, "legalfunc$" ++ f.name))) n = Option.none := by
      unfold mapFind
      rw [List.find?_eq_none.mpr]
      · rfl
      intro p hp
      obtain ⟨f, hf, hpf⟩ := List.mem_map.mp hp
      obtain ⟨hfm, hfr⟩ := List.mem_filter.mp hf
      intro hcon
      have hname : f.name = n := by
        rw [← hpf] at hcon
        simpa using hcon
      have hlook : m.getFunctionOrNull n = some f := by
        rw [← hname]
        exact find?_name_of_nodup hnd hfm
      have htrue : reclassifiedName m n = true := by
        unfold reclassifiedName
        rw [hlook]
        exact hfr
      rw [hr] at htrue
      exact Bool.noConfusion htrue
    rw [hfind]
  · rw [if_pos rfl]
    have hexists : ∃ f, m.getFunctionOrNull n = some f ∧ reclassified m f = true := by
      unfold reclassifiedName at hr
      rcases hl : m.getFunctionOrNull n with _ | f
      · rw [hl] at hr
        exact Bool.noConfusion hr
      · rw [hl] at hr
        exact ⟨f, rfl, hr⟩
    obtain ⟨f, hlook, hrf⟩ := hexists
    have hname : f.name = n := getFunctionOrNull_name hlook
    have hlook2 : m.functions.find? (fun g => g.name == n) = some f := hlook
    have hfilter : (m.functions.filter (reclassified m)).find?
        (fun g => g.name == n) = some f := find?_filter_keep hlook2 hrf
    unfold renameFn mapFind
    rw [List.find?_map]
    have hcomp : ((fun p : String × String => p.1 == n) ∘
        (fun f : Func => (f.name, "legalfunc$" ++ f.name))) =
        (fun g : Func => g.name == n) := rfl
    rw [hcomp, hfilter]
    show "legalfunc$" ++ f.name = _
    rw [hname]

/-! ### Claims C1, C6, C7 -/

/-- C1: after a successful run on a well-formed module with free channel
names, every function export targets an existing function whose signature
has no i64 and no f32 parameter or result, and every function that remains import
ed likewise has a fully legal signature. -/
theorem claim_C1_interface_legal (m m₁ : Module) (hwf : wfModule m)
    (hch : channelNamesFree m) (hrun : run m = Except.ok m₁) :
    (∀ ex ∈ m₁.exports, ex.kind = ExternalKind.Function →
      ∃ f, m₁.getFunctionOrNull ex.value = some f ∧ isIllegalF f = false) ∧
    (∀ f ∈ m₁.functions, f.imported = true → isIllegalF f = false) := by
  obtain ⟨⟨_, _, hexp, himp⟩, _⟩ := run_master m hwf hch m₁ hrun
  exact ⟨hexp, fun f hf him => (himp f hf him).1⟩

/-- C6: after a successful run, the table segments are exactly the original
segments with every entry that named a reclassified (illegal, hence removed) import
renamed to its legalfunc$ stub and every other entry unchanged; in
particular no resulting entry names a removed illegal import. -/
theorem claim_C6_table_integrity (m m₁ : Module) (hwf : wfModule m)
    (hch : channelNamesFree m) (hrun : run m = Except.ok m₁) :
    m₁.table.segments = m.table.segments.map (List.map (fun n =>
      if reclassifiedName m n = true then "legalfunc$" ++ n else n)) ∧
    (∀ seg ∈ m₁.table.segments, ∀ e ∈ seg, reclassifiedName m e = false) := by
  obtain ⟨_, htab⟩ := run_master m hwf hch m₁ hrun
  obtain ⟨hnd, _, _, _, hfreeF, _⟩ := hwf
  constructor
  · rw [htab]
    have hfun : renameFn ((m.functions.filter (reclassified m)).map
        (fun f => (f.name, "legalfunc$" ++ f.name))) = (fun n =>
        if reclassifiedName m n = true then "legalfunc$" ++ n else n) :=
      funext (renameFn_reclass m hnd)
    rw [hfun]
  · intro seg hseg e he
    rw [htab] at hseg
    obtain ⟨s0, hs0, rfl⟩ := List.mem_map.mp hseg
    obtain ⟨n, hn, rfl⟩ := List.mem_map.mp he
    rw [renameFn_reclass m hnd n]
    cases hr : reclassifiedName m n
    · rw [if_neg (by simp [hr])]
      exact hr
    · rw [if_pos rfl]
      have hnone := lookup_prefix_none m hfreeF ("legalfunc$" ++ n)
        (hasLegalPref_append n (by decide))
      unfold reclassifiedName
      rw [hnone]

/-- C7: the transformation is idempotent — a successful run lands in the
legalized fixed point, so running it a second time returns the module
unchanged: no duplicate stubs, channel resources or repointed exports. -/
theorem claim_C7_idempotent (m m₁ : Module) (hwf : wfModule m)
    (hch : channelNamesFree m) (hrun : run m = Except.ok m₁) :
    run m₁ = Except.ok m₁ := by
  obtain ⟨hleg, _⟩ := run_master m hwf hch m₁ hrun
  exact run_of_legalized m₁ hleg

/-! ### Witness fixture: a well-formed module with an illegal export, an
illegal import and a table entry naming that import -/

/-- Witness fixture: a non-imported function with an i64 result, exported. -/
def bigRetW : Func :=
  { name := "bigRet", params := [], result := Ty.i64, vars := [],
    type := "", module_ := "", base := "", body := some (.constI64 7) }

/-- Witness fixture: an imported function taking an i64. -/
def jsOpW : Func :=
  { name := "jsOp", params := [Ty.i64], result := Ty.none, vars := [],
    type := "tj", module_ := "env", base := "jsOp", body := Option.none }

/-- Witness fixture: the type record of the illegal import. -/
def tjW : FunctionType := { name := "tj", params := [Ty.i64], result := Ty.none }

/-- Witness fixture module: well-formed, channel names free, one illegal
export, one illegal import, and a table naming both functions. -/
def mX : Module :=
  { functions := [bigRetW, jsOpW],
    functionTypes := [tjW],
    exports := [{ name := "bigRet", value := "bigRet", kind := ExternalKind.Function }],
    globals := [],
    table := { segments := [["jsOp", "bigRet"]] } }

/-- The module a successful run produces, total for use in witnesses. -/
def runResult (m : Module) : Module :=
  match run m with
  | Except.ok x => x
  | Except.error _ => m

theorem wf_mX : wfModule mX := by
  refine ⟨by decide, by decide, ?_, by decide, by decide, by decide⟩
  intro f hf him
  fin_cases hf
  · exact absurd him (by decide)
  · exact ⟨tjW, rfl, rfl, rfl⟩

theorem chfree_mX : channelNamesFree mX := by
  intro _ _ _ _
  exact ⟨rfl, rfl⟩

theorem run_mX : run mX = Except.ok (runResult mX) := rfl

/-- C1 witness: the claim applied to the concrete fixture, each hypothesis
discharged there. -/
theorem claim_C1_interface_legal_witness :
    wfModule mX ∧ channelNamesFree mX ∧ run mX = Except.ok (runResult mX) ∧
    ((∀ ex ∈ (runResult mX).exports, ex.kind = ExternalKind.Function →
      ∃ f, (runResult mX).getFunctionOrNull ex.value = some f ∧ isIllegalF f = false) ∧
    (∀ f ∈ (runResult mX).functions, f.imported = true → isIllegalF f = false)) :=
  ⟨wf_mX, chfree_mX, run_mX,
    claim_C1_interface_legal mX (runResult mX) wf_mX chfree_mX run_mX⟩

/-- C6 witness: the claim applied to the concrete fixture, each hypothesis
discharged there. -/
theorem claim_C6_table_integrity_witness :
    wfModule mX ∧ channelNamesFree mX ∧ run mX = Except.ok (runResult mX) ∧
    ((runResult mX).table.segments = mX.table.segments.map (List.map (fun n =>
      if reclassifiedName mX n = true then "legalfunc$" ++ n else n)) ∧
    (∀ seg ∈ (runResult mX).table.segments, ∀ e ∈ seg,
      reclassifiedName mX e = false)) :=
  ⟨wf_mX, chfree_mX, run_mX,
    claim_C6_table_integrity mX (runResult mX) wf_mX chfree_mX run_mX⟩

/-- C7 witness: the claim applied to the concrete fixture, each hypothesis
discharged there. -/
theorem claim_C7_idempotent_witness :
    wfModule mX ∧ channelNamesFree mX ∧ run mX = Except.ok (runResult mX) ∧
    run (runResult mX) = Except.ok (runResult mX) :=
  ⟨wf_mX, chfree_mX, run_mX,
    claim_C7_idempotent mX (runResult mX) wf_mX chfree_mX run_mX⟩

end LegalizeJS
